import Mathlib

/-!
# Route aggregation and nginx configuration synthesis

A shallow embedding of `nginx/config.go` (`GetConf`, `hash`, the `confTmpl`
template and the two default documents) and of `ingress/config.go`
(`ConfigFromEnv`), followed by the properties proved about them.

Conventions of the embedding:

* a Go `map[string]V` is an association list kept sorted by key (`mapSet` inserts
  in key order, `modelSorted_routingModel`), so walking the list is the sorted-key
  walk `text/template` performs in `range`, and its keys are distinct;
* the walk `for _, cacheEntry := range cache.Pods` visits the entries of a Go map
  in an unspecified order: `Cache.Pods` is the list of the map's entries in the
  order in which the loop visits them, and statements about "every processing
  order" quantify over the permutations of that list;
* pointers (`*hostT`, `*locationT`, `*upstreamT`) are followed by writing the
  updated record back under its key;
* `uint32` is a `Nat` reduced modulo `2 ^ 32`.
-/

namespace Ingress

/-! ## Configuration from the environment (`ingress/config.go`) -/

/-- The constant `DefaultAPIKeySecret`. -/
def DefaultAPIKeySecret : String := "routing"

/-- The constant `DefaultAPIKeySecretDataField`. -/
def DefaultAPIKeySecretDataField : String := "api-key"

/-- The constant `DefaultAPIKeySecretLocation`. -/
def DefaultAPIKeySecretLocation : String :=
  DefaultAPIKeySecret ++ ":" ++ DefaultAPIKeySecretDataField

/-- The constant `DefaultHostsAnnotation`. -/
def DefaultHostsAnnotation : String := "routingHosts"

/-- The constant `DefaultPathsAnnotation`. -/
def DefaultPathsAnnotation : String := "routingPaths"

/-- The constant `DefaultPort`. -/
def DefaultPort : Int := 80

/-- The constant `DefaultRoutableLabelSelector`. -/
def DefaultRoutableLabelSelector : String := "routable=true"

/-- The constant `EnvVarAPIKeySecretLocation`. -/
def EnvVarAPIKeySecretLocation : String := "API_KEY_SECRET_LOCATION"

/-- The constant `EnvVarHostsAnnotation`. -/
def EnvVarHostsAnnotation : String := "HOSTS_ANNOTATION"

/-- The constant `EnvVarPathsAnnotation`. -/
def EnvVarPathsAnnotation : String := "PATHS_ANNOTATION"

/-- The constant `EnvVarPort`: the environment variable for providing the port
nginx should listen on. -/
def EnvVarPort : String := "PORT"

/-- The constant `EnvVarRoutableLabelSelector`. -/
def EnvVarRoutableLabelSelector : String := "ROUTABLE_LABEL_SELECTOR"

/-- The message `fmt.Errorf(ErrMsgTmplInvalidAnnotationName, name, value)`. -/
def errInvalidAnnotationName (name value : String) : String :=
  name ++ " has an invalid annotation name: " ++ value

/-- The message `fmt.Errorf(ErrMsgTmplInvalidAPIKeySecretLocation, name)`. -/
def errInvalidAPIKeySecretLocation (name : String) : String :=
  name ++
    " is not in the format of \x7bAPI_KEY_SECRET_NAME\x7d:\x7bAPI_KEY_SECRET_DATA_FIELD_NAME\x7d"

/-- The message `fmt.Errorf(ErrMsgTmplInvalidLabelSelector, name, value)`. -/
def errInvalidLabelSelector (name value : String) : String :=
  name ++ " has an invalid label selector: " ++ value ++ "\n"

/-- The message `fmt.Errorf(ErrMsgTmplInvalidPort, name, value)`. -/
def errInvalidPort (name value : String) : String :=
  name ++ " is an invalid port: " ++ value ++ "\n"

/-- Modelled from the spec: the validated runtime configuration object (listen
port, annotation names, secret location, label selector); the struct `Config` is
declared outside the sources at hand, and its fields are those that
`ConfigFromEnv` assigns. -/
structure Config (Selector : Type) where
  APIKeySecret : String
  APIKeySecretDataField : String
  HostsAnnotation : String
  PathsAnnotation : String
  Port : Int
  RoutableLabelSelector : Selector

/-- The functions of other packages that `ConfigFromEnv` calls, taken as
parameters: `validation.IsQualifiedName`, `strings.ToLower`, `utils.IsValidPort`
and `labels.Parse` (`none` for an error). -/
structure Library (Selector : Type) where
  IsQualifiedName : String → Bool
  ToLower : String → String
  IsValidPort : Int → Bool
  Parse : String → Option Selector

/-- The pieces of a character sequence between the occurrences of a separator. -/
def splitChars (sep : Char) : List Char → List (List Char)
  | [] => [[]]
  | c :: cs =>
    if c = sep then [] :: splitChars sep cs
    else
      match splitChars sep cs with
      | [] => [[c]]
      | piece :: pieces => (c :: piece) :: pieces

/-- The function `strings.Split` for a separator of one character. -/
def Split (s : String) (sep : Char) : List String :=
  (splitChars sep s.toList).map String.mk

/-- The value of a decimal digit. -/
def digitValue (c : Char) : Option Nat :=
  if 48 ≤ c.toNat ∧ c.toNat ≤ 57 then some (c.toNat - 48) else none

/-- The value of a sequence of decimal digits read after the value `acc`. -/
def digitsValue (acc : Nat) : List Char → Option Nat
  | [] => some acc
  | c :: cs =>
    match digitValue c with
    | some d => digitsValue (acc * 10 + d) cs
    | none => none

/-- The value of a non-empty sequence of decimal digits. -/
def naturalValue (cs : List Char) : Option Nat :=
  if cs = [] then none else digitsValue 0 cs

/-- The function `strconv.Atoi` with the error as `none`: an optional sign, then
decimal digits, within the range of a 64-bit `int`. -/
def Atoi (s : String) : Option Int :=
  match s.toList with
  | '-' :: cs =>
    match naturalValue cs with
    | some n => if n ≤ 2 ^ 63 then some (-(n : Int)) else none
    | none => none
  | '+' :: cs =>
    match naturalValue cs with
    | some n => if n < 2 ^ 63 then some (n : Int) else none
    | none => none
  | cs =>
    match naturalValue cs with
    | some n => if n < 2 ^ 63 then some (n : Int) else none
    | none => none

/-- Lines 69-85 of `ConfigFromEnv`: the secret name and the data field read from
`API_KEY_SECRET_LOCATION`. -/
def apiKeySecretLocationParts (apiKeySecretLocation : String) :
    Except String (String × String) :=
  if apiKeySecretLocation = "" then
    .ok (DefaultAPIKeySecret, DefaultAPIKeySecretDataField)
  else
    match Split apiKeySecretLocation ':' with
    | [name, field] => .ok (name, field)
    | _ => .error (errInvalidAPIKeySecretLocation EnvVarAPIKeySecretLocation)

/-- Lines 93-105 of `ConfigFromEnv`: the port read from `PORT`. -/
def portFromEnv {Selector : Type} (lib : Library Selector) (portStr : String) :
    Except String Int :=
  if portStr = "" then .ok DefaultPort
  else
    match Atoi portStr with
    | some port =>
      if lib.IsValidPort port then .ok port else .error (errInvalidPort EnvVarPort portStr)
    | none => .error (errInvalidPort EnvVarPort portStr)

/-- The function `ConfigFromEnv`; `getenv` is `os.Getenv`, which gives the empty
string for a variable that is not set. -/
def ConfigFromEnv {Selector : Type} (lib : Library Selector) (getenv : String → String) :
    Except String (Config Selector) :=
  let hostsAnnotation :=
    if getenv EnvVarHostsAnnotation = "" then DefaultHostsAnnotation
    else getenv EnvVarHostsAnnotation
  let pathsAnnotation :=
    if getenv EnvVarPathsAnnotation = "" then DefaultPathsAnnotation
    else getenv EnvVarPathsAnnotation
  match apiKeySecretLocationParts (getenv EnvVarAPIKeySecretLocation) with
  | .error err => .error err
  | .ok (apiKeySecret, apiKeySecretDataField) =>
    if ¬ lib.IsQualifiedName (lib.ToLower hostsAnnotation) = true then
      .error (errInvalidAnnotationName EnvVarHostsAnnotation hostsAnnotation)
    else if ¬ lib.IsQualifiedName (lib.ToLower pathsAnnotation) = true then
      .error (errInvalidAnnotationName EnvVarPathsAnnotation pathsAnnotation)
    else
      match portFromEnv lib (getenv EnvVarPort) with
      | .error err => .error err
      | .ok port =>
        let routableLabelSelector :=
          if getenv EnvVarRoutableLabelSelector = "" then DefaultRoutableLabelSelector
          else getenv EnvVarRoutableLabelSelector
        match lib.Parse routableLabelSelector with
        | some selector =>
          .ok
            { APIKeySecret := apiKeySecret
              APIKeySecretDataField := apiKeySecretDataField
              HostsAnnotation := hostsAnnotation
              PathsAnnotation := pathsAnnotation
              Port := port
              RoutableLabelSelector := selector }
        | none =>
          .error (errInvalidLabelSelector EnvVarRoutableLabelSelector routableLabelSelector)

/-- An environment in which only `API_KEY_SECRET_LOCATION` is set, to
`mysecret:mykey`. -/
def envLocation (name : String) : String :=
  if name = "API_KEY_SECRET_LOCATION" then "mysecret:mykey" else ""

/-- An environment in which only `API_KEY_SECRET_LOCATION` is set, to `a:b:c`. -/
def envLocationThree (name : String) : String :=
  if name = "API_KEY_SECRET_LOCATION" then "a:b:c" else ""

/-- An environment in which only `PORT` is set, to `8080`. -/
def envPort8080 (name : String) : String :=
  if name = "PORT" then "8080" else ""

/-- A stand-in for the other packages: it accepts every annotation name, the
ports 1 to 65535 and every selector, which it returns as it is. -/
def permissiveLibrary : Library String :=
  { IsQualifiedName := fun _ => true
    ToLower := fun s => String.mk (s.toList.map Char.toLower)
    IsValidPort := fun port => decide (0 < port ∧ port < 65536)
    Parse := fun selector => some selector }

end Ingress

namespace Nginx

/-! ## Go strings and maps with string keys -/

/-- The bytes of the UTF-8 encoding of a code point. -/
def utf8Bytes (c : Nat) : List Nat :=
  if c < 0x80 then [c]
  else if c < 0x800 then [0xC0 + c / 64, 0x80 + c % 64]
  else if c < 0x10000 then [0xE0 + c / 4096, 0x80 + c / 64 % 64, 0x80 + c % 64]
  else [0xF0 + c / 262144, 0x80 + c / 4096 % 64, 0x80 + c / 64 % 64, 0x80 + c % 64]

/-- The bytes of a string, `[]byte(s)`. -/
def stringBytes (s : String) : List Nat :=
  s.toList.flatMap (fun c => utf8Bytes c.toNat)

/-- The order `<` of Go strings: the lexicographic order of their bytes. -/
def keyLess (a b : String) : Prop :=
  stringBytes a < stringBytes b

instance (a b : String) : Decidable (keyLess a b) :=
  inferInstanceAs (Decidable (stringBytes a < stringBytes b))

/-- Map lookup `m[k]` with the comma-ok result as an `Option`. -/
def mapGet {V : Type} (k : String) : List (String × V) → Option V
  | [] => none
  | (k', v) :: rest => if k = k' then some v else mapGet k rest

/-- Map assignment `m[k] = v`: replaces the entry of `k`, or inserts it at its
place in key order. -/
def mapSet {V : Type} (k : String) (v : V) : List (String × V) → List (String × V)
  | [] => [(k, v)]
  | (k', v') :: rest =>
    if k = k' then (k, v) :: rest
    else if keyLess k k' then (k, v) :: (k', v') :: rest
    else (k', v') :: mapSet k v rest

/-! ## The cache (package `ingress`) -/

/-- Modelled from the spec: the `Incoming` descriptor of a route (`Host` string,
`Path` string); the type declaration is not part of the sources at hand. -/
structure IncomingT where
  Host : String
  Path : String
  deriving DecidableEq, Repr

/-- Modelled from the spec: the `Outgoing` descriptor of a route (`IP` string,
`Port` string); the type declaration is not part of the sources at hand. -/
structure OutgoingT where
  IP : String
  Port : String
  deriving DecidableEq, Repr

/-- Modelled from the spec: a `Route` binds an incoming (host, path) to an
outgoing (ip, port); the type declaration is not part of the sources at hand. -/
structure Route where
  Incoming : IncomingT
  Outgoing : OutgoingT
  deriving DecidableEq, Repr

/-- Modelled from the spec: the pod's identity (name, namespace), the two fields
of the pod object that `GetConf` reads. -/
structure PodT where
  Name : String
  Namespace : String
  deriving DecidableEq, Repr

/-- Modelled from the spec: a cache entry has the pod's identity and an ordered
collection of `Routes`. -/
structure PodWithRoutes where
  Pod : PodT
  Routes : List Route
  deriving DecidableEq, Repr

/-- Modelled from the spec: a secret record holds a byte payload for a designated
access-key field; `APIKey` is `secret.Data[ingress.KeyIngressAPIKey]` (the empty
slice when the field is absent or empty). -/
structure SecretT where
  APIKey : List UInt8
  deriving DecidableEq, Repr

/-- Modelled from the spec: the `Cache` has `Pods` (the cache entries, listed in
the order in which `range cache.Pods` visits them) and `Secrets` (a map from
namespace to at most one secret record). -/
structure Cache where
  Pods : List PodWithRoutes
  Secrets : List (String × SecretT)
  deriving DecidableEq, Repr

/-! ## Standard-library functions used by `GetConf` -/

/-- The 32-bit FNV-1a hash of a byte sequence (`fnv.New32a`, `Write`, `Sum32`):
offset basis 2166136261, and for each byte xor then multiply by the prime
16777619 modulo `2 ^ 32`. -/
def fnv32a (bytes : List Nat) : Nat :=
  bytes.foldl (fun h b => ((h ^^^ b) * 16777619) % 2 ^ 32) 2166136261

/-- The function `hash` of `nginx/config.go`. -/
def hash (s : String) : Nat :=
  fnv32a (stringBytes s)

/-- The alphabet of `base64.StdEncoding`. -/
def base64Alphabet : List Char :=
  "ABCDEFGHIJKLMNOPQRSTUVWXYZabcdefghijklmnopqrstuvwxyz0123456789+/".toList

/-- The character of a 6-bit value in `base64.StdEncoding`. -/
def base64Char (n : Nat) : Char :=
  base64Alphabet.getD n 'A'

/-- The characters of `base64.StdEncoding.EncodeToString`, padded with `=`. -/
def base64Chars : List UInt8 → List Char
  | [] => []
  | [a] =>
    [base64Char (a.toNat / 4), base64Char (a.toNat % 4 * 16), '=', '=']
  | [a, b] =>
    [base64Char (a.toNat / 4), base64Char (a.toNat % 4 * 16 + b.toNat / 16),
      base64Char (b.toNat % 16 * 4), '=']
  | a :: b :: c :: rest =>
    base64Char (a.toNat / 4) :: base64Char (a.toNat % 4 * 16 + b.toNat / 16) ::
      base64Char (b.toNat % 16 * 4 + c.toNat / 64) :: base64Char (c.toNat % 64) ::
      base64Chars rest

/-- The function `base64.StdEncoding.EncodeToString`. -/
def base64Encode (bytes : List UInt8) : String :=
  String.mk (base64Chars bytes)

/-! ## The routing model (`nginx/config.go`, lines 69-96) -/

/-- The struct `serverT`. -/
structure serverT where
  IsUpstream : Bool
  PodName : String
  Target : String
  deriving DecidableEq, Repr

/-- The struct `locationT`. -/
structure locationT where
  Namespace : String
  Path : String
  Secret : String
  Server : serverT
  deriving DecidableEq, Repr

/-- The struct `hostT`. -/
structure hostT where
  Locations : List (String × locationT)
  deriving DecidableEq, Repr

/-- The struct `upstreamT`. -/
structure upstreamT where
  Host : String
  Name : String
  Path : String
  Servers : List serverT
  deriving DecidableEq, Repr

/-- The struct `templateDataT`. -/
structure templateDataT where
  Hosts : List (String × hostT)
  Upstreams : List (String × upstreamT)
  deriving DecidableEq, Repr

/-! ## The aggregation loop of `GetConf` (lines 124-216) -/

/-- Lines 152-154: `upstreamName`, `"microservice"` followed by the base-10
rendering (`fmt.Sprint`) of the hash of the upstream key. -/
def upstreamName (upstreamKey : String) : String :=
  "microservice" ++ toString (hash upstreamKey)

/-- Lines 152: `upstreamKey`. -/
def upstreamKey (route : Route) : String :=
  route.Incoming.Host ++ route.Incoming.Path

/-- Lines 155-159: `target`, the outgoing IP, with the port appended unless the
port string is `80` or `443`. -/
def target (route : Route) : String :=
  if route.Outgoing.Port ≠ "80" ∧ route.Outgoing.Port ≠ "443" then
    route.Outgoing.IP ++ ":" ++ route.Outgoing.Port
  else route.Outgoing.IP

/-- Lines 142-149: `locationSecret`, the base64 of the access key of the secret
of the namespace, or the empty string when the namespace has no secret. -/
def locationSecret (secrets : List (String × SecretT)) (ns : String) : String :=
  match mapGet ns secrets with
  | some secret => base64Encode secret.APIKey
  | none => ""

/-- Lines 164-196: the update of `tmplData.Upstreams` when the location exists
and its server target differs from the new target. -/
def updateUpstreams (ups : List (String × upstreamT)) (location : locationT)
    (podName : String) (route : Route) : List (String × upstreamT) :=
  match mapGet (upstreamKey route) ups with
  | some upstream =>
    if upstream.Servers.any (fun server => server.Target = target route) then ups
    else
      mapSet (upstreamKey route)
        { upstream with
          Servers := upstream.Servers ++
            [{ IsUpstream := false, PodName := podName, Target := target route }] }
        ups
  | none =>
    mapSet (upstreamKey route)
      { Name := upstreamName (upstreamKey route)
        Host := route.Incoming.Host
        Path := route.Incoming.Path
        Servers :=
          [location.Server,
            { IsUpstream := false, PodName := podName, Target := target route }] }
      ups

/-- Lines 133-214: the body of the inner loop, for one route of one cache
entry. -/
def processRoute (secrets : List (String × SecretT)) (cacheEntry : PodWithRoutes)
    (tmplData : templateDataT) (route : Route) : templateDataT :=
  let hosts :=
    match mapGet route.Incoming.Host tmplData.Hosts with
    | some _ => tmplData.Hosts
    | none => mapSet route.Incoming.Host { Locations := [] } tmplData.Hosts
  let host : hostT := (mapGet route.Incoming.Host hosts).getD { Locations := [] }
  match mapGet route.Incoming.Path host.Locations with
  | some location =>
    if location.Server.Target ≠ target route then
      { Hosts :=
          mapSet route.Incoming.Host
            { Locations :=
                mapSet route.Incoming.Path
                  { location with
                    Server :=
                      { IsUpstream := true, PodName := ""
                        Target := upstreamName (upstreamKey route) } }
                  host.Locations }
            hosts
        Upstreams :=
          updateUpstreams tmplData.Upstreams location cacheEntry.Pod.Name route }
    else { Hosts := hosts, Upstreams := tmplData.Upstreams }
  | none =>
    { Hosts :=
        mapSet route.Incoming.Host
          { Locations :=
              mapSet route.Incoming.Path
                { Namespace := cacheEntry.Pod.Namespace
                  Path := route.Incoming.Path
                  Secret := locationSecret secrets cacheEntry.Pod.Namespace
                  Server :=
                    { IsUpstream := false, PodName := cacheEntry.Pod.Name
                      Target := target route } }
                host.Locations }
          hosts
      Upstreams := tmplData.Upstreams }

/-- Lines 132-215: the inner loop over the routes of one cache entry. -/
def processEntry (secrets : List (String × SecretT)) (tmplData : templateDataT)
    (cacheEntry : PodWithRoutes) : templateDataT :=
  cacheEntry.Routes.foldl (processRoute secrets cacheEntry) tmplData

/-- Lines 124-216: the routing model `tmplData` that `GetConf` builds, starting
from two empty maps and walking the pods in the order of `cache.Pods`. -/
def routingModel (cache : Cache) : templateDataT :=
  cache.Pods.foldl (processEntry cache.Secrets) { Hosts := [], Upstreams := [] }

/-! ## The documents (lines 14-64) -/

/-- The constant `DefaultNginxServerConf`. -/
def DefaultNginxServerConf : String :=
  "\n  # Default server that will just close the connection as if there was no server available\n  server \x7b\n    listen 80 default_server;\n    return 444;\n  \x7d\n"

/-- The constant `DefaultNginxConf`. -/
def DefaultNginxConf : String :=
  "\n# A very simple nginx configuration file that forces nginx to start as a daemon.\nevents \x7b\x7d\nhttp \x7b" ++
    DefaultNginxServerConf ++ "\x7d\ndaemon on;\n"

/-- The text of `confTmpl` before its first action. -/
def confHead : String :=
  "\nevents \x7b\n  worker_connections 1024;\n\x7d\nhttp \x7b\n  # http://nginx.org/en/docs/http/ngx_http_core_module.html\n  types_hash_max_size 2048;\n  server_names_hash_max_size 512;\n  server_names_hash_bucket_size 64;\n"

/-- The body of `range $server := $upstream.Servers` in `confTmpl`. -/
def renderServer (server : serverT) : String :=
  "    # Pod " ++ server.PodName ++ "\n    server " ++ server.Target ++ ";\n"

/-- The body of `range $key, $upstream := .Upstreams` in `confTmpl`. -/
def renderUpstream (upstream : upstreamT) : String :=
  "\n  # Upstream for " ++ upstream.Path ++ " traffic on " ++ upstream.Host ++
    "\n  upstream " ++ upstream.Name ++ " \x7b\n" ++
    String.join (upstream.Servers.map renderServer) ++ "  \x7d\n"

/-- The opening of a location block in `confTmpl`, up to the first `if`. -/
def locationHead (path : String) : String :=
  "\n    location " ++ path ++ " \x7b\n      proxy_set_header Host $host;\n      "

/-- The text of the branch `if ne $location.Secret ""` in `confTmpl`: the check
of the `X-INGRESS-API-KEY` header against the secret. -/
def secretGuard (ns secret : String) : String :=
  "# Check the Ingress API Key (namespace: " ++ ns ++
    ")\n      if ($http_x_ingress_api_key != \x27" ++ secret ++
    "\x27) \x7b\n        return 403;\n      \x7d\n      "

/-- The comment line chosen by `if $location.Server.IsUpstream` in `confTmpl`. -/
def serverComment (server : serverT) : String :=
  if server.IsUpstream then "# Upstream " ++ server.Target else "# Pod " ++ server.PodName

/-- The `proxy_pass` directive and the end of a location block in `confTmpl`. -/
def proxyPass (server : serverT) : String :=
  "\n      proxy_pass http://" ++ server.Target ++ ";\n    \x7d\n"

/-- The body of `range $path, $location := $server.Locations` in `confTmpl`. -/
def renderLocation (path : String) (location : locationT) : String :=
  locationHead path ++
    (if location.Secret ≠ "" then secretGuard location.Namespace location.Secret else "") ++
    serverComment location.Server ++ proxyPass location.Server

/-- The body of `range $host, $server := .Hosts` in `confTmpl`. -/
def renderHost (host : String) (server : hostT) : String :=
  "\n  server \x7b\n    listen 80;\n    server_name " ++ host ++ ";\n" ++
    String.join (server.Locations.map (fun kv => renderLocation kv.1 kv.2)) ++ "  \x7d\n"

/-- The upstream blocks of the document, in key order. -/
def renderUpstreams (upstreams : List (String × upstreamT)) : String :=
  String.join (upstreams.map (fun kv => renderUpstream kv.2))

/-- The host server blocks of the document, in key order. -/
def renderHosts (hosts : List (String × hostT)) : String :=
  String.join (hosts.map (fun kv => renderHost kv.1 kv.2))

/-- The execution of the template `confTmpl` on the routing model
(`tmpl.Execute`). -/
def renderConf (tmplData : templateDataT) : String :=
  confHead ++ renderUpstreams tmplData.Upstreams ++ renderHosts tmplData.Hosts ++
    DefaultNginxServerConf ++ "\x7d\n"

/-- The function `GetConf`. -/
def GetConf (cache : Cache) : String :=
  if cache.Pods.length = 0 then DefaultNginxConf
  else renderConf (routingModel cache)

/-! ## Views of the routing model used in the statements -/

/-- The routing model after walking a list of pods from a given model. -/
def walkPods (secrets : List (String × SecretT)) (tmplData : templateDataT)
    (pods : List PodWithRoutes) : templateDataT :=
  pods.foldl (processEntry secrets) tmplData

/-- The location stored at a host and a path, `tmplData.Hosts[h].Locations[p]`. -/
def locationAt (tmplData : templateDataT) (h p : String) : Option locationT :=
  (mapGet h tmplData.Hosts).bind (fun host => mapGet p host.Locations)

/-- The targets of the member servers of an upstream, in member order. -/
def memberTargets (upstream : upstreamT) : List String :=
  upstream.Servers.map (fun server => server.Target)

/-- The member a route adds to an upstream. -/
def newMember (cacheEntry : PodWithRoutes) (route : Route) : serverT :=
  { IsUpstream := false, PodName := cacheEntry.Pod.Name, Target := target route }

/-- The location a route leaves at its own host and path. -/
def stepLocation (secrets : List (String × SecretT)) (cacheEntry : PodWithRoutes)
    (route : Route) : Option locationT → locationT
  | some location =>
    if location.Server.Target ≠ target route then
      { location with
        Server :=
          { IsUpstream := true, PodName := ""
            Target := upstreamName (upstreamKey route) } }
    else location
  | none =>
    { Namespace := cacheEntry.Pod.Namespace
      Path := route.Incoming.Path
      Secret := locationSecret secrets cacheEntry.Pod.Namespace
      Server :=
        { IsUpstream := false, PodName := cacheEntry.Pod.Name, Target := target route } }

/-- The upstreams a route leaves. -/
def stepUpstreams (cacheEntry : PodWithRoutes) (tmplData : templateDataT) (route : Route) :
    List (String × upstreamT) :=
  match locationAt tmplData route.Incoming.Host route.Incoming.Path with
  | some location =>
    if location.Server.Target ≠ target route then
      updateUpstreams tmplData.Upstreams location cacheEntry.Pod.Name route
    else tmplData.Upstreams
  | none => tmplData.Upstreams

/-- The steps of the walk: every route paired with the cache entry that owns it,
in processing order. -/
def stepsOf (pods : List PodWithRoutes) : List (PodWithRoutes × Route) :=
  pods.flatMap (fun e => e.Routes.map (fun r => (e, r)))

/-- The loop body run over a list of steps. -/
def runSteps (secrets : List (String × SecretT)) (tmplData : templateDataT)
    (steps : List (PodWithRoutes × Route)) : templateDataT :=
  steps.foldl (fun d s => processRoute secrets s.1 d s.2) tmplData

/-- The upstream stored under a key, `tmplData.Upstreams[k]`. -/
def upstreamAt (tmplData : templateDataT) (k : String) : Option upstreamT :=
  mapGet k tmplData.Upstreams

/-- The member targets of the upstream stored under a key, none when there is no
such upstream. -/
def upstreamTargets (tmplData : templateDataT) (k : String) : List String :=
  match upstreamAt tmplData k with
  | some upstream => memberTargets upstream
  | none => []

/-- The upstream that lines 164-196 leave under the key of the route. -/
def stepUpstream (cacheEntry : PodWithRoutes) (route : Route) (location : locationT) :
    Option upstreamT → upstreamT
  | some upstream =>
    if upstream.Servers.any (fun server => server.Target = target route) then upstream
    else { upstream with Servers := upstream.Servers ++ [newMember cacheEntry route] }
  | none =>
    { Name := upstreamName (upstreamKey route)
      Host := route.Incoming.Host
      Path := route.Incoming.Path
      Servers := [location.Server, newMember cacheEntry route] }

/-- Distinct (host, path) pairs of the steps have distinct concatenations
`host ++ path`. -/
def NoKeyCollision (steps : List (PodWithRoutes × Route)) : Prop :=
  ∀ s ∈ steps, ∀ s' ∈ steps, upstreamKey s.2 = upstreamKey s'.2 → s.2.Incoming = s'.2.Incoming

/-- No step has a target equal to the upstream name of its own host and path. -/
def NoTargetIsName (steps : List (PodWithRoutes × Route)) : Prop :=
  ∀ s ∈ steps, target s.2 ≠ upstreamName (upstreamKey s.2)

instance (steps : List (PodWithRoutes × Route)) : Decidable (NoKeyCollision steps) := by
  unfold NoKeyCollision
  infer_instance

instance (steps : List (PodWithRoutes × Route)) : Decidable (NoTargetIsName steps) := by
  unfold NoTargetIsName
  infer_instance

/-- The facts the invariant keeps about the key of one step. -/
def KeyFacts (d : templateDataT) (steps : List (PodWithRoutes × Route)) (inc : IncomingT)
    (k : String) : Prop :=
  ∃ loc, locationAt d inc.Host inc.Path = some loc ∧
    (upstreamAt d k = none →
      loc.Server.IsUpstream = false ∧
      ∀ s' ∈ steps, upstreamKey s'.2 = k → target s'.2 = loc.Server.Target) ∧
    (∀ u, upstreamAt d k = some u →
      loc.Server.IsUpstream = true ∧
      loc.Server.Target = upstreamName k ∧
      (∀ t ∈ memberTargets u, ∃ s' ∈ steps, upstreamKey s'.2 = k ∧ target s'.2 = t) ∧
      (∀ s' ∈ steps, upstreamKey s'.2 = k →
        target s'.2 ≠ upstreamName k → target s'.2 ∈ memberTargets u) ∧
      ∃ s1 ∈ steps, ∃ s2 ∈ steps, upstreamKey s1.2 = k ∧
        upstreamKey s2.2 = k ∧ target s1.2 ≠ target s2.2)

/-- The relation between the routing model and the steps processed so far. -/
def KeyInv (d : templateDataT) (steps : List (PodWithRoutes × Route)) : Prop :=
  (∀ h p, locationAt d h p ≠ none →
    ∃ s ∈ steps, s.2.Incoming.Host = h ∧ s.2.Incoming.Path = p) ∧
  (∀ k, upstreamAt d k ≠ none → ∃ s ∈ steps, upstreamKey s.2 = k) ∧
  ∀ s ∈ steps, KeyFacts d steps s.2.Incoming (upstreamKey s.2)

/-- The set of hosts of the routing model, as the list of the keys of `Hosts`. -/
def hostNames (d : templateDataT) : List String :=
  d.Hosts.map Prod.fst

/-- The set of paths under a host, as the list of the keys of its `Locations`. -/
def pathsOf (d : templateDataT) (h : String) : List String :=
  match mapGet h d.Hosts with
  | some host => host.Locations.map Prod.fst
  | none => []

/-- The set of upstream keys, as the list of the keys of `Upstreams`. -/
def upstreamKeys (d : templateDataT) : List String :=
  d.Upstreams.map Prod.fst

/-- The keys of a map are listed in strictly increasing order. -/
def keysSorted {V : Type} (m : List (String × V)) : Prop :=
  (m.map Prod.fst).Pairwise keyLess

/-- The three maps of the routing model, and the `Locations` of every host, are
listed in strictly increasing key order. -/
def ModelSorted (d : templateDataT) : Prop :=
  keysSorted d.Hosts ∧ (∀ hk ∈ d.Hosts, keysSorted hk.2.Locations) ∧ keysSorted d.Upstreams

/-! ## Example caches -/

/-- A route to `a.com` `/` served at `10.0.0.5:8080`. -/
def routeA5 : Route :=
  { Incoming := { Host := "a.com", Path := "/" }
    Outgoing := { IP := "10.0.0.5", Port := "8080" } }

/-- A route to `a.com` `/` served at `10.0.0.6:8080`. -/
def routeA6 : Route :=
  { Incoming := { Host := "a.com", Path := "/" }
    Outgoing := { IP := "10.0.0.6", Port := "8080" } }

/-- A route to `a.com` `/` served at `10.0.0.7`, port 80. -/
def routeA7 : Route :=
  { Incoming := { Host := "a.com", Path := "/" }
    Outgoing := { IP := "10.0.0.7", Port := "80" } }

/-- Three pods of namespace `ns1`, one route each, all to `a.com` `/`. -/
def podA5 : PodWithRoutes :=
  { Pod := { Name := "p1", Namespace := "ns1" }, Routes := [routeA5] }

/-- The second pod. -/
def podA6 : PodWithRoutes :=
  { Pod := { Name := "p2", Namespace := "ns1" }, Routes := [routeA6] }

/-- The third pod. -/
def podA7 : PodWithRoutes :=
  { Pod := { Name := "p3", Namespace := "ns1" }, Routes := [routeA7] }

/-- The cache of one pod with a single route. -/
def singleRouteCache (pod : PodT) (route : Route) (secrets : List (String × SecretT)) :
    Cache :=
  { Pods := [{ Pod := pod, Routes := [route] }]
    Secrets := secrets }

/-- A pod whose route to `a.com` `/` has as outgoing IP the string that is the
upstream name of `a.com/`, with port 80. -/
def podNamed : PodWithRoutes :=
  { Pod := { Name := "p4", Namespace := "ns1" }
    Routes :=
      [{ Incoming := { Host := "a.com", Path := "/" }
         Outgoing := { IP := "microservice1276921464", Port := "80" } }] }

/-- Two pods routed to host `a.com`, path `/x/y`. -/
def podX1 : PodWithRoutes :=
  { Pod := { Name := "x1", Namespace := "ns1" }
    Routes :=
      [{ Incoming := { Host := "a.com", Path := "/x/y" }
         Outgoing := { IP := "10.0.1.1", Port := "80" } }] }

/-- The second pod of `a.com` `/x/y`. -/
def podX2 : PodWithRoutes :=
  { Pod := { Name := "x2", Namespace := "ns1" }
    Routes :=
      [{ Incoming := { Host := "a.com", Path := "/x/y" }
         Outgoing := { IP := "10.0.1.2", Port := "80" } }] }

/-- Two pods routed to host `a.com/x`, path `/y`: another (host, path) pair with
the same concatenation `a.com/x/y`. -/
def podY1 : PodWithRoutes :=
  { Pod := { Name := "y1", Namespace := "ns1" }
    Routes :=
      [{ Incoming := { Host := "a.com/x", Path := "/y" }
         Outgoing := { IP := "10.0.2.1", Port := "80" } }] }

/-- The second pod of `a.com/x` `/y`. -/
def podY2 : PodWithRoutes :=
  { Pod := { Name := "y2", Namespace := "ns1" }
    Routes :=
      [{ Incoming := { Host := "a.com/x", Path := "/y" }
         Outgoing := { IP := "10.0.2.2", Port := "80" } }] }

/-- A further pod of `a.com` `/` served at `10.0.0.5:8080`, the target of `podA5`. -/
def podA5b : PodWithRoutes :=
  { Pod := { Name := "p5", Namespace := "ns1" }, Routes := [routeA5] }

/-- A cache of one pod of namespace `ns1`, where `ns1` has a registered secret
whose access key is the empty byte sequence. -/
def cacheEmptyKey : Cache :=
  { Pods := [podA5], Secrets := [("ns1", { APIKey := [] })] }

/-- A cache of one pod of namespace `ns1`, where `ns1` has a registered secret
with the access key bytes 1, 2, 3, 4. -/
def cacheWithKey : Cache :=
  { Pods := [podA5], Secrets := [("ns1", { APIKey := [1, 2, 3, 4] })] }

/-- The location that `cacheWithKey` yields at `a.com` `/`, with its path. -/
def locWithKey : String × locationT :=
  ("/",
    { Namespace := "ns1", Path := "/", Secret := "AQIDBA=="
      Server := { IsUpstream := false, PodName := "p1", Target := "10.0.0.5:8080" } })

/-- The host entry that `cacheWithKey` yields, with its name. -/
def hostWithKey : String × hostT :=
  ("a.com", { Locations := [locWithKey] })

/-- The document expected of `cacheEmptyKey`: one host, one location, no guard. -/
def docEmptyKey : String :=
  "\n" ++
    "events \x7b\n" ++
    "  worker_connections 1024;\n" ++
    "\x7d\n" ++
    "http \x7b\n" ++
    "  # http://nginx.org/en/docs/http/ngx_http_core_module.html\n" ++
    "  types_hash_max_size 2048;\n" ++
    "  server_names_hash_max_size 512;\n" ++
    "  server_names_hash_bucket_size 64;\n" ++
    "\n" ++
    "  server \x7b\n" ++
    "    listen 80;\n" ++
    "    server_name a.com;\n" ++
    "\n" ++
    "    location / \x7b\n" ++
    "      proxy_set_header Host $host;\n" ++
    "      # Pod p1\n" ++
    "      proxy_pass http://10.0.0.5:8080;\n" ++
    "    \x7d\n" ++
    "  \x7d\n" ++
    "\n" ++
    "  # Default server that will just close the connection as if there was no server available\n" ++
    "  server \x7b\n" ++
    "    listen 80 default_server;\n" ++
    "    return 444;\n" ++
    "  \x7d\n" ++
    "\x7d\n"

/-- Two pods routed to host `costarring.com`, path `/`. -/
def podC1 : PodWithRoutes :=
  { Pod := { Name := "c1", Namespace := "ns1" }
    Routes :=
      [{ Incoming := { Host := "costarring.com", Path := "/" }
         Outgoing := { IP := "10.0.3.1", Port := "80" } }] }

/-- The second pod of `costarring.com` `/`. -/
def podC2 : PodWithRoutes :=
  { Pod := { Name := "c2", Namespace := "ns1" }
    Routes :=
      [{ Incoming := { Host := "costarring.com", Path := "/" }
         Outgoing := { IP := "10.0.3.2", Port := "80" } }] }

/-- Two pods routed to host `liquid.com`, path `/`; the keys `costarring.com/` and
`liquid.com/` have the same FNV-1a hash, 3622022975. -/
def podL1 : PodWithRoutes :=
  { Pod := { Name := "l1", Namespace := "ns1" }
    Routes :=
      [{ Incoming := { Host := "liquid.com", Path := "/" }
         Outgoing := { IP := "10.0.4.1", Port := "80" } }] }

/-- The second pod of `liquid.com` `/`. -/
def podL2 : PodWithRoutes :=
  { Pod := { Name := "l2", Namespace := "ns1" }
    Routes :=
      [{ Incoming := { Host := "liquid.com", Path := "/" }
         Outgoing := { IP := "10.0.4.2", Port := "80" } }] }

/-- A cache of four pods, two on `costarring.com` `/` and two on `liquid.com` `/`. -/
def cacheCollision : Cache :=
  { Pods := [podC1, podC2, podL1, podL2], Secrets := [] }

/-- The pooled location that `cacheTwo` yields at `a.com` `/`, with its path. -/
def locPooled : String × locationT :=
  ("/",
    { Namespace := "ns1", Path := "/", Secret := ""
      Server := { IsUpstream := true, PodName := "", Target := "microservice1276921464" } })

/-- The host entry that `cacheTwo` yields, with its name. -/
def hostPooled : String × hostT :=
  ("a.com", { Locations := [locPooled] })

/-- The upstream that `cacheTwo` yields, with its key. -/
def upstreamTwo : String × upstreamT :=
  ("a.com/",
    { Host := "a.com", Name := "microservice1276921464", Path := "/"
      Servers :=
        [{ IsUpstream := false, PodName := "p1", Target := "10.0.0.5:8080" },
          { IsUpstream := false, PodName := "p2", Target := "10.0.0.6:8080" }] })

/-- A pod of namespace `ns2` with the route of `podA5`. -/
def podOtherNs : PodWithRoutes :=
  { Pod := { Name := "q1", Namespace := "ns2" }, Routes := [routeA5] }

/-- Secrets in which only the namespace `ns2` has a secret, with the access key
bytes 1, 2, 3, 4. -/
def secretsNs2 : List (String × SecretT) :=
  [("ns2", { APIKey := [1, 2, 3, 4] })]

/-- A cache of two pods on `a.com` `/`, without secrets. -/
def cacheTwo : Cache :=
  { Pods := [podA5, podA6], Secrets := [] }

/-! ## Lemmas on maps -/

theorem mapGet_mapSet_self {V : Type} (k : String) (v : V) (m : List (String × V)) :
    mapGet k (mapSet k v m) = some v := by
  induction m with
  | nil => simp [mapSet, mapGet]
  | cons kv rest ih =>
    obtain ⟨k', v'⟩ := kv
    unfold mapSet
    by_cases h1 : k = k'
    · simp [h1, mapGet]
    · by_cases h2 : keyLess k k'
      · simp [h1, h2, mapGet]
      · simp [h1, h2, mapGet, ih]

theorem mapGet_mapSet_of_ne {V : Type} {k k0 : String} (h : k0 ≠ k) (v : V)
    (m : List (String × V)) : mapGet k0 (mapSet k v m) = mapGet k0 m := by
  induction m with
  | nil => simp [mapSet, mapGet, h]
  | cons kv rest ih =>
    obtain ⟨k', v'⟩ := kv
    unfold mapSet
    by_cases h1 : k = k'
    · subst h1
      simp [mapGet, h]
    · by_cases h2 : keyLess k k'
      · simp [h1, h2, mapGet, h]
      · simp [h1, h2, mapGet, ih]

theorem mem_mapSet {V : Type} {k : String} {v : V} {m : List (String × V)}
    {x : String × V} (hx : x ∈ mapSet k v m) : x = (k, v) ∨ x ∈ m := by
  induction m with
  | nil => simpa [mapSet] using hx
  | cons kv rest ih =>
    obtain ⟨k', v'⟩ := kv
    unfold mapSet at hx
    by_cases h1 : k = k'
    · simp [h1] at hx
      rcases hx with hx | hx
      · left; rw [hx, h1]
      · right; exact List.mem_cons_of_mem _ hx
    · by_cases h2 : keyLess k k'
      · simp [h1, h2] at hx
        rcases hx with hx | hx | hx
        · left; exact hx
        · right; rw [hx]; exact List.mem_cons_self _ _
        · right; exact List.mem_cons_of_mem _ hx
      · simp [h1, h2] at hx
        rcases hx with hx | hx
        · right; rw [hx]; exact List.mem_cons_self _ _
        · rcases ih hx with h | h
          · left; exact h
          · right; exact List.mem_cons_of_mem _ h

theorem mem_of_mapGet {V : Type} {k : String} {v : V} {m : List (String × V)}
    (h : mapGet k m = some v) : (k, v) ∈ m := by
  induction m with
  | nil => simp [mapGet] at h
  | cons kv rest ih =>
    obtain ⟨k', v'⟩ := kv
    unfold mapGet at h
    by_cases h1 : k = k'
    · simp [h1] at h
      simp [h1, h]
    · simp [h1] at h
      exact List.mem_cons_of_mem _ (ih h)

/-! ## One step of the loop, seen through `locationAt` and `Upstreams` -/

theorem processRoute_upstreams (secrets : List (String × SecretT))
    (cacheEntry : PodWithRoutes) (tmplData : templateDataT) (route : Route) :
    (processRoute secrets cacheEntry tmplData route).Upstreams =
      stepUpstreams cacheEntry tmplData route := by
  unfold processRoute stepUpstreams locationAt
  cases hh : mapGet route.Incoming.Host tmplData.Hosts with
  | none =>
    simp [mapGet_mapSet_self, mapGet]
  | some host =>
    simp only [hh, Option.getD_some, Option.bind_some]
    cases hl : mapGet route.Incoming.Path host.Locations with
    | none => simp [hl]
    | some location =>
      by_cases ht : location.Server.Target = target route
      · simp [hl, ht]
      · simp [hl, ht]

theorem processRoute_locationAt (secrets : List (String × SecretT))
    (cacheEntry : PodWithRoutes) (tmplData : templateDataT) (route : Route)
    (h p : String) :
    locationAt (processRoute secrets cacheEntry tmplData route) h p =
      if h = route.Incoming.Host ∧ p = route.Incoming.Path then
        some (stepLocation secrets cacheEntry route
          (locationAt tmplData route.Incoming.Host route.Incoming.Path))
      else locationAt tmplData h p := by
  unfold processRoute locationAt
  cases hh : mapGet route.Incoming.Host tmplData.Hosts with
  | none =>
    simp only [mapGet_mapSet_self, Option.getD_some, mapGet, Option.bind_none, stepLocation]
    by_cases h1 : h = route.Incoming.Host
    · subst h1
      by_cases h2 : p = route.Incoming.Path
      · subst h2
        simp [mapGet_mapSet_self]
      · simp [mapGet_mapSet_self, mapSet, mapGet, h2, hh]
    · simp [mapGet_mapSet_of_ne h1, h1]
  | some host =>
    simp only [hh, Option.getD_some, Option.bind_some]
    cases hl : mapGet route.Incoming.Path host.Locations with
    | none =>
      simp only [stepLocation]
      by_cases h1 : h = route.Incoming.Host
      · subst h1
        by_cases h2 : p = route.Incoming.Path
        · subst h2
          simp [mapGet_mapSet_self, hl]
        · simp [mapGet_mapSet_self, mapGet_mapSet_of_ne h2, h2, hh]
      · simp [mapGet_mapSet_of_ne h1, h1]
    | some location =>
      by_cases ht : location.Server.Target = target route
      · simp only [ht, ne_eq, not_true_eq_false, if_false, stepLocation]
        by_cases h1 : h = route.Incoming.Host
        · subst h1
          by_cases h2 : p = route.Incoming.Path
          · subst h2
            simp [hh, hl, ht]
          · simp [h2]
        · simp [h1]
      · simp only [ht, ne_eq, not_false_eq_true, if_true, stepLocation]
        by_cases h1 : h = route.Incoming.Host
        · subst h1
          by_cases h2 : p = route.Incoming.Path
          · subst h2
            simp [mapGet_mapSet_self, hl, ht]
          · simp [mapGet_mapSet_self, mapGet_mapSet_of_ne h2, h2, hh]
        · simp [mapGet_mapSet_of_ne h1, h1]

/-! ## The standard-library functions on known values -/

/-- The FNV-1a hash on the published test values of the empty string, `a` and
`foobar`. -/
theorem hash_test_values :
    Nginx.hash "" = 0x811c9dc5 ∧ Nginx.hash "a" = 0xe40c292c ∧
      Nginx.hash "foobar" = 0xbf9cf968 := by
  decide

/-- The base64 encoding on the examples of RFC 4648. -/
theorem base64Encode_test_values :
    base64Encode [] = "" ∧ base64Encode [102] = "Zg==" ∧
      base64Encode [102, 111] = "Zm8=" ∧ base64Encode [102, 111, 111] = "Zm9v" ∧
      base64Encode [102, 111, 111, 98, 97, 114] = "Zm9vYmFy" := by
  decide

/-- The function `Atoi` on a port, a signed value and two strings that are not
numbers. -/
theorem atoi_test_values :
    Ingress.Atoi "8080" = some 8080 ∧ Ingress.Atoi "-12" = some (-12) ∧
      Ingress.Atoi "" = none ∧ Ingress.Atoi "80a" = none := by
  decide

/-! ## Induction over the walk -/

theorem processEntry_induct (secrets : List (String × SecretT)) (P : templateDataT → Prop)
    (hstep : ∀ cacheEntry tmplData route, P tmplData →
      P (processRoute secrets cacheEntry tmplData route))
    (cacheEntry : PodWithRoutes) (tmplData : templateDataT) (h : P tmplData) :
    P (processEntry secrets tmplData cacheEntry) := by
  unfold processEntry
  generalize cacheEntry.Routes = routes
  induction routes generalizing tmplData with
  | nil => simpa using h
  | cons r rest ih =>
    rw [List.foldl_cons]
    exact ih _ (hstep _ _ _ h)

theorem walkPods_induct (secrets : List (String × SecretT)) (P : templateDataT → Prop)
    (hstep : ∀ cacheEntry tmplData route, P tmplData →
      P (processRoute secrets cacheEntry tmplData route))
    (pods : List PodWithRoutes) (tmplData : templateDataT) (h : P tmplData) :
    P (walkPods secrets tmplData pods) := by
  unfold walkPods
  induction pods generalizing tmplData with
  | nil => simpa using h
  | cons e rest ih =>
    rw [List.foldl_cons]
    exact ih _ (processEntry_induct secrets P hstep e tmplData h)

theorem routingModel_induct (P : templateDataT → Prop) (cache : Cache)
    (h0 : P { Hosts := [], Upstreams := [] })
    (hstep : ∀ cacheEntry tmplData route, P tmplData →
      P (processRoute cache.Secrets cacheEntry tmplData route)) :
    P (routingModel cache) :=
  walkPods_induct cache.Secrets P hstep cache.Pods _ h0

/-- Every entry of the upstreams after a step is an old entry, an old upstream of
the key of the route extended by a member with a new target, or a fresh upstream
of two members with different targets. -/
theorem mem_stepUpstreams {cacheEntry : PodWithRoutes} {tmplData : templateDataT}
    {route : Route} {kv : String × upstreamT}
    (hkv : kv ∈ stepUpstreams cacheEntry tmplData route) :
    kv ∈ tmplData.Upstreams ∨
    (∃ u, (upstreamKey route, u) ∈ tmplData.Upstreams ∧
        target route ∉ memberTargets u ∧
        kv = (upstreamKey route,
          { u with Servers := u.Servers ++ [newMember cacheEntry route] })) ∨
    (∃ server : serverT, server.Target ≠ target route ∧
        kv = (upstreamKey route,
          { Name := upstreamName (upstreamKey route)
            Host := route.Incoming.Host
            Path := route.Incoming.Path
            Servers := [server, newMember cacheEntry route] })) := by
  unfold stepUpstreams at hkv
  cases hl : locationAt tmplData route.Incoming.Host route.Incoming.Path with
  | none =>
    rw [hl] at hkv
    exact Or.inl hkv
  | some location =>
    rw [hl] at hkv
    by_cases ht : location.Server.Target = target route
    · simp only [ht, ne_eq, not_true_eq_false, if_false] at hkv
      exact Or.inl hkv
    · simp only [ht, ne_eq, not_false_eq_true, if_true] at hkv
      unfold updateUpstreams at hkv
      cases hu : mapGet (upstreamKey route) tmplData.Upstreams with
      | none =>
        rw [hu] at hkv
        rcases mem_mapSet hkv with h | h
        · exact Or.inr (Or.inr ⟨location.Server, ht, h⟩)
        · exact Or.inl h
      | some u =>
        rw [hu] at hkv
        by_cases hany : u.Servers.any (fun server => server.Target = target route) = true
        · simp only [hany, if_true] at hkv
          exact Or.inl hkv
        · simp only [hany] at hkv
          rcases mem_mapSet hkv with h | h
          · refine Or.inr (Or.inl ⟨u, mem_of_mapGet hu, ?_, h⟩)
            intro hmem
            apply hany
            simp only [memberTargets, List.mem_map] at hmem
            obtain ⟨sv, hsv, hsvt⟩ := hmem
            simp only [List.any_eq_true, decide_eq_true_eq]
            exact ⟨sv, hsv, hsvt⟩
          · exact Or.inl h

theorem walkPods_eq_runSteps (secrets : List (String × SecretT)) (pods : List PodWithRoutes)
    (tmplData : templateDataT) :
    walkPods secrets tmplData pods = runSteps secrets tmplData (stepsOf pods) := by
  unfold walkPods runSteps stepsOf
  induction pods generalizing tmplData with
  | nil => rfl
  | cons e rest ih =>
    rw [List.foldl_cons, ih, List.flatMap_cons, List.foldl_append]
    congr 1
    unfold processEntry
    rw [List.foldl_map]

theorem routingModel_eq_runSteps (cache : Cache) :
    routingModel cache =
      runSteps cache.Secrets { Hosts := [], Upstreams := [] } (stepsOf cache.Pods) :=
  walkPods_eq_runSteps cache.Secrets cache.Pods _

theorem upstreamAt_processRoute (secrets : List (String × SecretT))
    (cacheEntry : PodWithRoutes) (tmplData : templateDataT) (route : Route) (k : String) :
    upstreamAt (processRoute secrets cacheEntry tmplData route) k =
      match locationAt tmplData route.Incoming.Host route.Incoming.Path with
      | some loc =>
        if loc.Server.Target ≠ target route ∧ k = upstreamKey route then
          some (stepUpstream cacheEntry route loc (upstreamAt tmplData (upstreamKey route)))
        else upstreamAt tmplData k
      | none => upstreamAt tmplData k := by
  unfold upstreamAt
  rw [processRoute_upstreams]
  unfold stepUpstreams
  cases hl : locationAt tmplData route.Incoming.Host route.Incoming.Path with
  | none => rfl
  | some loc =>
    by_cases ht : loc.Server.Target = target route
    · simp [ht]
    · simp only [ne_eq, ht, not_false_eq_true, if_true, true_and]
      unfold updateUpstreams stepUpstream
      cases hu : mapGet (upstreamKey route) tmplData.Upstreams with
      | none =>
        by_cases hk : k = upstreamKey route
        · subst hk
          simp [mapGet_mapSet_self, newMember]
        · simp [mapGet_mapSet_of_ne hk, hk]
      | some u =>
        by_cases hany : u.Servers.any (fun server => server.Target = target route) = true
        · by_cases hk : k = upstreamKey route
          · subst hk
            simp [hany, hu]
          · simp [hany, hk]
        · by_cases hk : k = upstreamKey route
          · subst hk
            simp [hany, mapGet_mapSet_self, newMember]
          · simp [hany, mapGet_mapSet_of_ne hk, hk]

theorem hostSome_processRoute (secrets : List (String × SecretT))
    (cacheEntry : PodWithRoutes) (tmplData : templateDataT) (route : Route) (h : String) :
    (mapGet h (processRoute secrets cacheEntry tmplData route).Hosts).isSome =
      (decide (h = route.Incoming.Host) || (mapGet h tmplData.Hosts).isSome) := by
  unfold processRoute
  cases hh : mapGet route.Incoming.Host tmplData.Hosts with
  | none =>
    simp only [mapGet_mapSet_self, Option.getD_some, mapGet]
    by_cases h1 : h = route.Incoming.Host
    · subst h1
      simp [mapGet_mapSet_self]
    · simp [mapGet_mapSet_of_ne h1, h1]
  | some host =>
    simp only [hh, Option.getD_some]
    by_cases h1 : h = route.Incoming.Host
    · subst h1
      cases hl : mapGet route.Incoming.Path host.Locations with
      | none => simp [mapGet_mapSet_self]
      | some location =>
        by_cases ht : location.Server.Target = target route
        · simp [ht, hh]
        · simp [ht, mapGet_mapSet_self]
    · cases hl : mapGet route.Incoming.Path host.Locations with
      | none => simp [mapGet_mapSet_of_ne h1, h1]
      | some location =>
        by_cases ht : location.Server.Target = target route
        · simp [ht, h1]
        · simp [ht, mapGet_mapSet_of_ne h1, h1]

/-! ## The invariant of the walk -/

theorem upstreamKey_eq_of_incoming {r r0 : Route} (hh : r.Incoming.Host = r0.Incoming.Host)
    (hp : r.Incoming.Path = r0.Incoming.Path) : upstreamKey r = upstreamKey r0 := by
  unfold upstreamKey
  rw [hh, hp]

theorem memberTargets_stepUpstream_none (cacheEntry : PodWithRoutes) (route : Route)
    (loc : locationT) :
    memberTargets (stepUpstream cacheEntry route loc none) =
      [loc.Server.Target, target route] := by
  simp [stepUpstream, memberTargets, newMember]

theorem mem_memberTargets_stepUpstream_some (cacheEntry : PodWithRoutes) (route : Route)
    (loc : locationT) (u : upstreamT) (t : String) :
    t ∈ memberTargets (stepUpstream cacheEntry route loc (some u)) ↔
      t ∈ memberTargets u ∨ t = target route := by
  unfold stepUpstream
  by_cases hany : u.Servers.any (fun server => server.Target = target route) = true
  · simp only [hany, if_true]
    constructor
    · intro h
      exact Or.inl h
    · rintro (h | h)
      · exact h
      · subst h
        simp only [List.any_eq_true, decide_eq_true_eq] at hany
        obtain ⟨sv, hsv, hsvt⟩ := hany
        simp only [memberTargets, List.mem_map]
        exact ⟨sv, hsv, hsvt⟩
  · simp [hany, memberTargets, newMember]

/-- The facts about the key of the step being processed, after the step. -/
theorem keyFacts_step_same (secrets : List (String × SecretT)) (d : templateDataT)
    (steps : List (PodWithRoutes × Route)) (s0 : PodWithRoutes × Route)
    (hinv : KeyInv d steps) (hcol : NoKeyCollision (steps ++ [s0])) :
    KeyFacts (processRoute secrets s0.1 d s0.2) (steps ++ [s0]) s0.2.Incoming
      (upstreamKey s0.2) := by
  obtain ⟨hloc, hups, hmain⟩ := hinv
  have hs0 : s0 ∈ steps ++ [s0] := by simp
  have hsub : ∀ s ∈ steps, s ∈ steps ++ [s0] := fun s hs => List.mem_append_left _ hs
  have hinc : ∀ s ∈ steps, upstreamKey s.2 = upstreamKey s0.2 →
      s.2.Incoming = s0.2.Incoming := fun s hs hk => hcol s (hsub s hs) s0 hs0 hk
  have hcases : ∀ s ∈ steps ++ [s0], s ∈ steps ∨ s = s0 := by
    intro s hs
    simpa using hs
  unfold KeyFacts
  rw [processRoute_locationAt, if_pos ⟨rfl, rfl⟩, upstreamAt_processRoute]
  cases hl : locationAt d s0.2.Incoming.Host s0.2.Incoming.Path with
  | none =>
    have hno : ∀ s ∈ steps, upstreamKey s.2 ≠ upstreamKey s0.2 := by
      intro s hs hk
      obtain ⟨loc, hlocs, _⟩ := hmain s hs
      rw [hinc s hs hk, hl] at hlocs
      exact Option.noConfusion hlocs
    have hnone : upstreamAt d (upstreamKey s0.2) = none := by
      by_contra hne
      obtain ⟨s, hs, hk⟩ := hups _ hne
      exact hno s hs hk
    refine ⟨_, rfl, ?_, ?_⟩
    · intro _
      refine ⟨rfl, ?_⟩
      intro s' hs' hk
      rcases hcases s' hs' with h | h
      · exact absurd hk (hno s' h)
      · rw [h]
        rfl
    · intro u hu
      simp only [hnone] at hu
      exact Option.noConfusion hu
  | some loc =>
    obtain ⟨s1, hs1, hs1h, hs1p⟩ := hloc _ _ (by rw [hl]; exact Option.noConfusion)
    have hk1 : upstreamKey s1.2 = upstreamKey s0.2 := upstreamKey_eq_of_incoming hs1h hs1p
    obtain ⟨loc1, hloc1, hA, hB⟩ := hmain s1 hs1
    rw [hs1h, hs1p, hl] at hloc1
    have hloc1 : loc1 = loc := (Option.some.inj hloc1).symm
    subst hloc1
    rw [hk1] at hA hB
    by_cases ht : loc1.Server.Target = target s0.2
    · -- the route repeats the target the location already has
      refine ⟨_, rfl, ?_, ?_⟩
      · intro hn
        simp only [ht, ne_eq, not_true_eq_false, false_and, if_false] at hn
        obtain ⟨hA1, hA2⟩ := hA hn
        simp only [stepLocation, ht, ne_eq, not_true_eq_false, if_false]
        refine ⟨hA1, ?_⟩
        intro s' hs' hk
        rcases hcases s' hs' with h | h
        · rw [hA2 s' h hk, ht]
        · rw [h]
      · intro u hu
        simp only [ht, ne_eq, not_true_eq_false, false_and, if_false] at hu
        obtain ⟨hB1, hB2, hB3, hB4, s2, hs2, s3, hs3, hB5⟩ := hB u hu
        simp only [stepLocation, ht, ne_eq, not_true_eq_false, if_false]
        refine ⟨hB1, by rw [← ht]; exact hB2, ?_, ?_, ?_⟩
        · intro t htm
          obtain ⟨s', hs', h1, h2⟩ := hB3 t htm
          exact ⟨s', hsub s' hs', h1, h2⟩
        · intro s' hs' hk hnn
          rcases hcases s' hs' with h | h
          · exact hB4 s' h hk hnn
          · rw [h, ← ht] at hnn
            exact absurd hB2 hnn
        · exact ⟨s2, hsub s2 hs2, s3, hsub s3 hs3, hB5⟩
    · -- the route brings a different target: the location becomes pooled
      refine ⟨_, rfl, ?_, ?_⟩
      · intro hn
        simp only [ne_eq, ht, not_false_eq_true, and_self, if_true] at hn
        exact Option.noConfusion hn
      · intro u hu
        simp only [ne_eq, ht, not_false_eq_true, and_self, if_true] at hu
        have hu : u = stepUpstream s0.1 s0.2 loc1 (upstreamAt d (upstreamKey s0.2)) :=
          (Option.some.inj hu).symm
        simp only [stepLocation, ne_eq, ht, not_false_eq_true, if_true]
        refine ⟨trivial, trivial, ?_⟩
        cases hold : upstreamAt d (upstreamKey s0.2) with
        | none =>
          rw [hold] at hu
          obtain ⟨_, hA2⟩ := hA hold
          rw [hu, memberTargets_stepUpstream_none]
          refine ⟨?_, ?_, ?_⟩
          · intro t htm
            simp only [List.mem_cons, List.mem_singleton, List.not_mem_nil, or_false] at htm
            rcases htm with h | h
            · exact ⟨s1, hsub s1 hs1, hk1, by rw [h]; exact hA2 s1 hs1 hk1⟩
            · exact ⟨s0, hs0, rfl, h.symm⟩
          · intro s' hs' hk _
            rcases hcases s' hs' with h | h
            · simp [hA2 s' h hk]
            · simp [h]
          · refine ⟨s1, hsub s1 hs1, s0, hs0, hk1, rfl, ?_⟩
            rw [hA2 s1 hs1 hk1]
            exact ht
        | some u0 =>
          rw [hold] at hu
          obtain ⟨_, _, hB3, hB4, s2, hs2, s3, hs3, hB5⟩ := hB u0 hold
          refine ⟨?_, ?_, ?_⟩
          · intro t htm
            rw [hu, mem_memberTargets_stepUpstream_some] at htm
            rcases htm with h | h
            · obtain ⟨s', hs', h1, h2⟩ := hB3 t h
              exact ⟨s', hsub s' hs', h1, h2⟩
            · exact ⟨s0, hs0, rfl, h.symm⟩
          · intro s' hs' hk hnn
            rw [hu, mem_memberTargets_stepUpstream_some]
            rcases hcases s' hs' with h | h
            · exact Or.inl (hB4 s' h hk hnn)
            · exact Or.inr (by rw [h])
          · exact ⟨s2, hsub s2 hs2, s3, hsub s3 hs3, hB5⟩

/-- The facts about a key other than the key of the step being processed are
kept by the step. -/
theorem keyFacts_step_other (secrets : List (String × SecretT)) (d : templateDataT)
    (steps : List (PodWithRoutes × Route)) (s0 s : PodWithRoutes × Route)
    (hk : upstreamKey s.2 ≠ upstreamKey s0.2)
    (hf : KeyFacts d steps s.2.Incoming (upstreamKey s.2)) :
    KeyFacts (processRoute secrets s0.1 d s0.2) (steps ++ [s0]) s.2.Incoming
      (upstreamKey s.2) := by
  have hsub : ∀ x ∈ steps, x ∈ steps ++ [s0] := fun x hx => List.mem_append_left _ hx
  have hcases : ∀ x ∈ steps ++ [s0], x ∈ steps ∨ x = s0 := by
    intro x hx
    simpa using hx
  have hinc : ¬(s.2.Incoming.Host = s0.2.Incoming.Host ∧
      s.2.Incoming.Path = s0.2.Incoming.Path) := by
    rintro ⟨h1, h2⟩
    exact hk (upstreamKey_eq_of_incoming h1 h2)
  have hup : upstreamAt (processRoute secrets s0.1 d s0.2) (upstreamKey s.2) =
      upstreamAt d (upstreamKey s.2) := by
    rw [upstreamAt_processRoute]
    cases locationAt d s0.2.Incoming.Host s0.2.Incoming.Path with
    | none => rfl
    | some loc => simp [hk]
  obtain ⟨loc, hloc, hA, hB⟩ := hf
  unfold KeyFacts
  rw [processRoute_locationAt, if_neg hinc, hup]
  refine ⟨loc, hloc, ?_, ?_⟩
  · intro hn
    obtain ⟨hA1, hA2⟩ := hA hn
    refine ⟨hA1, ?_⟩
    intro s' hs' hk'
    rcases hcases s' hs' with h | h
    · exact hA2 s' h hk'
    · rw [h] at hk'
      exact absurd hk'.symm hk
  · intro u hu
    obtain ⟨hB1, hB2, hB3, hB4, s2, hs2, s3, hs3, hB5⟩ := hB u hu
    refine ⟨hB1, hB2, ?_, ?_, ?_⟩
    · intro t htm
      obtain ⟨s', hs', h1, h2⟩ := hB3 t htm
      exact ⟨s', hsub s' hs', h1, h2⟩
    · intro s' hs' hk' hnn
      rcases hcases s' hs' with h | h
      · exact hB4 s' h hk' hnn
      · rw [h] at hk'
        exact absurd hk'.symm hk
    · exact ⟨s2, hsub s2 hs2, s3, hsub s3 hs3, hB5⟩

theorem keyInv_step (secrets : List (String × SecretT)) (d : templateDataT)
    (steps : List (PodWithRoutes × Route)) (s0 : PodWithRoutes × Route)
    (hinv : KeyInv d steps) (hcol : NoKeyCollision (steps ++ [s0])) :
    KeyInv (processRoute secrets s0.1 d s0.2) (steps ++ [s0]) := by
  have hsame := keyFacts_step_same secrets d steps s0 hinv hcol
  obtain ⟨hloc, hups, hmain⟩ := hinv
  have hs0 : s0 ∈ steps ++ [s0] := by simp
  have hsub : ∀ s ∈ steps, s ∈ steps ++ [s0] := fun s hs => List.mem_append_left _ hs
  refine ⟨?_, ?_, ?_⟩
  · intro h p hne
    rw [processRoute_locationAt] at hne
    by_cases hc : h = s0.2.Incoming.Host ∧ p = s0.2.Incoming.Path
    · exact ⟨s0, hs0, hc.1.symm, hc.2.symm⟩
    · rw [if_neg hc] at hne
      obtain ⟨s, hs, h1, h2⟩ := hloc h p hne
      exact ⟨s, hsub s hs, h1, h2⟩
  · intro k hne
    by_cases hk : k = upstreamKey s0.2
    · exact ⟨s0, hs0, hk.symm⟩
    · have hup : upstreamAt (processRoute secrets s0.1 d s0.2) k = upstreamAt d k := by
        rw [upstreamAt_processRoute]
        cases locationAt d s0.2.Incoming.Host s0.2.Incoming.Path with
        | none => rfl
        | some loc => simp [hk]
      rw [hup] at hne
      obtain ⟨s, hs, h1⟩ := hups k hne
      exact ⟨s, hsub s hs, h1⟩
  · intro s hs
    by_cases hk : upstreamKey s.2 = upstreamKey s0.2
    · have hi : s.2.Incoming = s0.2.Incoming := hcol s hs s0 hs0 hk
      rw [hk, hi]
      exact hsame
    · have hs' : s ∈ steps := by
        rcases List.mem_append.mp hs with h | h
        · exact h
        · rw [List.mem_singleton.mp h] at hk
          exact absurd rfl hk
      exact keyFacts_step_other secrets d steps s0 s hk (hmain s hs')

theorem noKeyCollision_of_append {steps rest : List (PodWithRoutes × Route)}
    (h : NoKeyCollision (steps ++ rest)) : NoKeyCollision steps :=
  fun s hs s' hs' hk => h s (List.mem_append_left _ hs) s' (List.mem_append_left _ hs') hk

theorem keyInv_runSteps_from (secrets : List (String × SecretT))
    (rest steps : List (PodWithRoutes × Route)) (d : templateDataT)
    (hinv : KeyInv d steps) (hcol : NoKeyCollision (steps ++ rest)) :
    KeyInv (runSteps secrets d rest) (steps ++ rest) := by
  induction rest generalizing steps d with
  | nil => simpa [runSteps] using hinv
  | cons s0 rest ih =>
    have happ : steps ++ s0 :: rest = (steps ++ [s0]) ++ rest := by simp
    rw [happ] at hcol ⊢
    have hstep := keyInv_step secrets d steps s0 hinv (noKeyCollision_of_append hcol)
    exact ih (steps ++ [s0]) _ hstep hcol

theorem keyInv_empty : KeyInv { Hosts := [], Upstreams := [] } [] := by
  refine ⟨?_, ?_, ?_⟩
  · intro h p hne
    exact absurd rfl hne
  · intro k hne
    exact absurd rfl hne
  · intro s hs
    simp at hs

/-- The invariant holds of the model built from the empty model. -/
theorem keyInv_runSteps (secrets : List (String × SecretT))
    (steps : List (PodWithRoutes × Route)) (hcol : NoKeyCollision steps) :
    KeyInv (runSteps secrets { Hosts := [], Upstreams := [] } steps) steps := by
  have h := keyInv_runSteps_from secrets steps [] _ keyInv_empty (by simpa using hcol)
  simpa using h

theorem upstreams_nodup_two (cache : Cache) :
    ∀ kv ∈ (routingModel cache).Upstreams,
      (memberTargets kv.2).Nodup ∧ 2 ≤ kv.2.Servers.length := by
  refine routingModel_induct (fun d => ∀ kv ∈ d.Upstreams,
    (memberTargets kv.2).Nodup ∧ 2 ≤ kv.2.Servers.length) cache ?_ ?_
  · intro kv hkv
    simp at hkv
  · intro cacheEntry tmplData route ih kv hkv
    rw [processRoute_upstreams] at hkv
    rcases mem_stepUpstreams hkv with h | ⟨u, hu, hnot, rfl⟩ | ⟨server, hne, rfl⟩
    · exact ih kv h
    · obtain ⟨hnd, hlen⟩ := ih _ hu
      constructor
      · simp only [memberTargets, List.map_append, List.map_cons, List.map_nil, newMember]
        simp only [memberTargets] at hnd hnot
        rw [List.nodup_append]
        refine ⟨hnd, List.nodup_singleton _, ?_⟩
        intro a ha hb
        simp only [List.mem_singleton] at hb
        subst hb
        exact hnot ha
      · simp only [List.length_append, List.length_singleton]
        simp only at hlen
        omega
    · simp [memberTargets, newMember, hne]

theorem mapGet_isSome_iff {V : Type} (k : String) (m : List (String × V)) :
    (mapGet k m).isSome = true ↔ k ∈ m.map Prod.fst := by
  induction m with
  | nil => simp [mapGet]
  | cons kv rest ih =>
    obtain ⟨k', v'⟩ := kv
    unfold mapGet
    by_cases h1 : k = k'
    · simp [h1]
    · simp [h1, ih]

theorem mem_pathsOf_iff (d : templateDataT) (h p : String) :
    p ∈ pathsOf d h ↔ (locationAt d h p).isSome = true := by
  unfold pathsOf locationAt
  cases mapGet h d.Hosts with
  | none => simp
  | some host => simp [mapGet_isSome_iff]

theorem hostSome_runSteps (secrets : List (String × SecretT))
    (steps : List (PodWithRoutes × Route)) (d : templateDataT) (h : String) :
    (mapGet h (runSteps secrets d steps).Hosts).isSome = true ↔
      (∃ s ∈ steps, s.2.Incoming.Host = h) ∨ (mapGet h d.Hosts).isSome = true := by
  induction steps generalizing d with
  | nil => simp [runSteps]
  | cons s0 rest ih =>
    have hrun : runSteps secrets d (s0 :: rest) =
        runSteps secrets (processRoute secrets s0.1 d s0.2) rest := rfl
    rw [hrun, ih, hostSome_processRoute]
    simp only [List.mem_cons, exists_eq_or_imp, Bool.or_eq_true, decide_eq_true_eq]
    constructor
    · rintro (h1 | h1 | h1)
      · exact Or.inl (Or.inr h1)
      · exact Or.inl (Or.inl h1.symm)
      · exact Or.inr h1
    · rintro ((h1 | h1) | h1)
      · exact Or.inr (Or.inl h1.symm)
      · exact Or.inl h1
      · exact Or.inr (Or.inr h1)

theorem locationSome_runSteps (secrets : List (String × SecretT))
    (steps : List (PodWithRoutes × Route)) (d : templateDataT) (h p : String) :
    (locationAt (runSteps secrets d steps) h p).isSome = true ↔
      (∃ s ∈ steps, s.2.Incoming.Host = h ∧ s.2.Incoming.Path = p) ∨
        (locationAt d h p).isSome = true := by
  induction steps generalizing d with
  | nil => simp [runSteps]
  | cons s0 rest ih =>
    have hrun : runSteps secrets d (s0 :: rest) =
        runSteps secrets (processRoute secrets s0.1 d s0.2) rest := rfl
    rw [hrun, ih, processRoute_locationAt]
    simp only [List.mem_cons, exists_eq_or_imp]
    by_cases hc : h = s0.2.Incoming.Host ∧ p = s0.2.Incoming.Path
    · obtain ⟨rfl, rfl⟩ := hc
      simp
    · have hc2 : ¬(s0.2.Incoming.Host = h ∧ s0.2.Incoming.Path = p) :=
        fun hx => hc ⟨hx.1.symm, hx.2.symm⟩
      simp only [hc, if_false, hc2, false_or]

theorem stepsOf_perm {pods1 pods2 : List PodWithRoutes} (hperm : pods1.Perm pods2) :
    (stepsOf pods1).Perm (stepsOf pods2) :=
  List.Perm.flatMap_right _ hperm

/-- With no key collision and no target equal to an upstream name, an upstream
exists under a key exactly when two steps of the key have different targets, and
its member targets are exactly the targets of the steps of the key. -/
theorem upstream_characterisation (secrets : List (String × SecretT))
    (steps : List (PodWithRoutes × Route)) (hcol : NoKeyCollision steps)
    (hname : NoTargetIsName steps) (k : String) :
    (upstreamAt (runSteps secrets { Hosts := [], Upstreams := [] } steps) k ≠ none ↔
      ∃ s1 ∈ steps, ∃ s2 ∈ steps, upstreamKey s1.2 = k ∧ upstreamKey s2.2 = k ∧
        target s1.2 ≠ target s2.2) ∧
    ∀ u, upstreamAt (runSteps secrets { Hosts := [], Upstreams := [] } steps) k = some u →
      ∀ t, t ∈ memberTargets u ↔ ∃ s ∈ steps, upstreamKey s.2 = k ∧ target s.2 = t := by
  obtain ⟨_, hups, hmain⟩ := keyInv_runSteps secrets steps hcol
  constructor
  · constructor
    · intro hne
      obtain ⟨s, hs, hk⟩ := hups k hne
      obtain ⟨loc, _, _, hB⟩ := hmain s hs
      rw [hk] at hB
      cases hu : upstreamAt (runSteps secrets { Hosts := [], Upstreams := [] } steps) k with
      | none => exact absurd hu hne
      | some u =>
        obtain ⟨_, _, _, _, h5⟩ := hB u hu
        exact h5
    · rintro ⟨s1, hs1, s2, hs2, hk1, hk2, hne⟩ hnone
      obtain ⟨loc, _, hA, _⟩ := hmain s1 hs1
      rw [hk1] at hA
      obtain ⟨_, hA2⟩ := hA hnone
      exact hne ((hA2 s1 hs1 hk1).trans (hA2 s2 hs2 hk2).symm)
  · intro u hu t
    obtain ⟨s, hs, hk⟩ := hups k (by rw [hu]; exact Option.noConfusion)
    obtain ⟨loc, _, _, hB⟩ := hmain s hs
    rw [hk] at hB
    obtain ⟨_, _, h3, h4, _⟩ := hB u hu
    constructor
    · exact h3 t
    · rintro ⟨s', hs', hk', rfl⟩
      refine h4 s' hs' hk' ?_
      rw [← hk']
      exact hname s' hs'

theorem upstreams_named (cache : Cache) :
    ∀ kv ∈ (routingModel cache).Upstreams,
      kv.1 = kv.2.Host ++ kv.2.Path ∧
      kv.2.Name = "microservice" ++ toString (fnv32a (stringBytes kv.1)) := by
  refine routingModel_induct (fun d => ∀ x ∈ d.Upstreams,
    x.1 = x.2.Host ++ x.2.Path ∧
    x.2.Name = "microservice" ++ toString (fnv32a (stringBytes x.1))) cache ?_ ?_
  · intro x hx
    simp at hx
  · intro cacheEntry tmplData route ih x hx
    rw [processRoute_upstreams] at hx
    rcases mem_stepUpstreams hx with h | ⟨u, hu, _, rfl⟩ | ⟨server, _, rfl⟩
    · exact ih x h
    · have hu2 := ih _ hu
      exact hu2
    · exact ⟨rfl, rfl⟩

/-- When all the steps go to one host and path and two of them have different
targets, the location is pooled and refers to the upstream of its key, whose
members are targets of steps, without duplicates, and include every target that
is not the upstream name. -/
theorem single_key_pool (cache : Cache) (inc : IncomingT)
    (hall : ∀ s ∈ stepsOf cache.Pods, s.2.Incoming = inc)
    (s1 s2 : PodWithRoutes × Route) (hs1 : s1 ∈ stepsOf cache.Pods)
    (hs2 : s2 ∈ stepsOf cache.Pods) (hne : target s1.2 ≠ target s2.2) :
    ∃ loc u, locationAt (routingModel cache) inc.Host inc.Path = some loc ∧
      loc.Server.IsUpstream = true ∧
      upstreamAt (routingModel cache) (inc.Host ++ inc.Path) = some u ∧
      loc.Server.Target = u.Name ∧
      (∀ t ∈ memberTargets u, ∃ s ∈ stepsOf cache.Pods, target s.2 = t) ∧
      (∀ s ∈ stepsOf cache.Pods, target s.2 ≠ upstreamName (inc.Host ++ inc.Path) →
        target s.2 ∈ memberTargets u) ∧
      (memberTargets u).Nodup ∧ 2 ≤ u.Servers.length := by
  have hcol : NoKeyCollision (stepsOf cache.Pods) := by
    intro s hs s' hs' _
    rw [hall s hs, hall s' hs']
  have hkey : ∀ s ∈ stepsOf cache.Pods, upstreamKey s.2 = inc.Host ++ inc.Path := by
    intro s hs
    unfold upstreamKey
    rw [hall s hs]
  obtain ⟨_, _, hmain⟩ := keyInv_runSteps cache.Secrets (stepsOf cache.Pods) hcol
  rw [← routingModel_eq_runSteps] at hmain
  obtain ⟨loc, hloc, hA, hB⟩ := hmain s1 hs1
  rw [hall s1 hs1] at hloc
  rw [hkey s1 hs1] at hA hB
  cases hu : upstreamAt (routingModel cache) (inc.Host ++ inc.Path) with
  | none =>
    obtain ⟨_, hA2⟩ := hA hu
    exact absurd ((hA2 s1 hs1 (hkey s1 hs1)).trans (hA2 s2 hs2 (hkey s2 hs2)).symm) hne
  | some u =>
    obtain ⟨h1, h2, h3, h4, _⟩ := hB u hu
    have hmem : (inc.Host ++ inc.Path, u) ∈ (routingModel cache).Upstreams := mem_of_mapGet hu
    obtain ⟨hnd, hlen⟩ := upstreams_nodup_two cache _ hmem
    obtain ⟨_, hname⟩ := upstreams_named cache _ hmem
    refine ⟨loc, u, hloc, h1, rfl, ?_, ?_, ?_, hnd, hlen⟩
    · rw [h2, hname]
      rfl
    · intro t ht
      obtain ⟨s, hs, _, hst⟩ := h3 t ht
      exact ⟨s, hs, hst⟩
    · intro s hs hn
      exact h4 s hs (hkey s hs) hn

theorem mem_hostNames_iff (secrets : List (String × SecretT)) (pods : List PodWithRoutes)
    (h : String) :
    h ∈ hostNames (routingModel { Pods := pods, Secrets := secrets }) ↔
      ∃ s ∈ stepsOf pods, s.2.Incoming.Host = h := by
  unfold hostNames
  rw [← mapGet_isSome_iff, routingModel_eq_runSteps, hostSome_runSteps]
  simp [mapGet]

theorem mem_pathsOf_model_iff (secrets : List (String × SecretT))
    (pods : List PodWithRoutes) (h p : String) :
    p ∈ pathsOf (routingModel { Pods := pods, Secrets := secrets }) h ↔
      ∃ s ∈ stepsOf pods, s.2.Incoming.Host = h ∧ s.2.Incoming.Path = p := by
  rw [mem_pathsOf_iff, routingModel_eq_runSteps, locationSome_runSteps]
  simp [locationAt, mapGet]

theorem mem_upstreamKeys_iff (d : templateDataT) (k : String) :
    k ∈ upstreamKeys d ↔ upstreamAt d k ≠ none := by
  unfold upstreamKeys upstreamAt
  rw [← mapGet_isSome_iff]
  cases mapGet k d.Upstreams <;> simp

theorem mem_upstreamTargets_iff (secrets : List (String × SecretT))
    (steps : List (PodWithRoutes × Route)) (hcol : NoKeyCollision steps)
    (hname : NoTargetIsName steps) (k t : String) :
    t ∈ upstreamTargets (runSteps secrets { Hosts := [], Upstreams := [] } steps) k ↔
      (∃ s1 ∈ steps, ∃ s2 ∈ steps, upstreamKey s1.2 = k ∧ upstreamKey s2.2 = k ∧
        target s1.2 ≠ target s2.2) ∧
      ∃ s ∈ steps, upstreamKey s.2 = k ∧ target s.2 = t := by
  obtain ⟨h1, h2⟩ := upstream_characterisation secrets steps hcol hname k
  unfold upstreamTargets
  cases hu : upstreamAt (runSteps secrets { Hosts := [], Upstreams := [] } steps) k with
  | none =>
    simp only [List.not_mem_nil, false_iff, not_and]
    intro h
    exact absurd hu (h1.mpr h)
  | some u =>
    simp only
    rw [h2 u hu t]
    constructor
    · intro h
      exact ⟨h1.mp (by rw [hu]; exact Option.noConfusion), h⟩
    · intro h
      exact h.2

theorem mem_stepsOf_iff (pods : List PodWithRoutes) (s : PodWithRoutes × Route) :
    s ∈ stepsOf pods ↔ s.1 ∈ pods ∧ s.2 ∈ s.1.Routes := by
  unfold stepsOf
  simp only [List.mem_flatMap, List.mem_map]
  constructor
  · rintro ⟨e, he, r, hr, rfl⟩
    exact ⟨he, hr⟩
  · rintro ⟨h1, h2⟩
    exact ⟨s.1, h1, s.2, h2, rfl⟩

/-- A property of locations that holds of every fresh location and is kept by
the update of the server of a location holds of every location of the routing
model. -/
theorem locations_induct (cache : Cache) (P : String → String → locationT → Prop)
    (hnew : ∀ (cacheEntry : PodWithRoutes) (route : Route),
      P route.Incoming.Host route.Incoming.Path
        (stepLocation cache.Secrets cacheEntry route none))
    (hupd : ∀ (cacheEntry : PodWithRoutes) (route : Route) (loc : locationT),
      P route.Incoming.Host route.Incoming.Path loc →
      P route.Incoming.Host route.Incoming.Path
        (stepLocation cache.Secrets cacheEntry route (some loc))) :
    ∀ hk ∈ (routingModel cache).Hosts, ∀ pl ∈ hk.2.Locations, P hk.1 pl.1 pl.2 := by
  refine routingModel_induct (fun d => ∀ hk ∈ d.Hosts, ∀ pl ∈ hk.2.Locations,
    P hk.1 pl.1 pl.2) cache ?_ ?_
  · intro hk hhk
    simp at hhk
  · intro cacheEntry d route ih hk hhk pl hpl
    unfold processRoute at hhk
    cases hh : mapGet route.Incoming.Host d.Hosts with
    | none =>
      simp only [hh, mapGet_mapSet_self, Option.getD_some, mapGet] at hhk
      rcases mem_mapSet hhk with h | h
      · rw [h] at hpl
        simp only [mapSet, List.mem_singleton] at hpl
        rw [h, hpl]
        exact hnew cacheEntry route
      · rcases mem_mapSet h with h2 | h2
        · rw [h2] at hpl
          simp at hpl
        · exact ih hk h2 pl hpl
    | some host =>
      have hhost : (route.Incoming.Host, host) ∈ d.Hosts := mem_of_mapGet hh
      simp only [hh, Option.getD_some] at hhk
      cases hl : mapGet route.Incoming.Path host.Locations with
      | none =>
        simp only [hl] at hhk
        rcases mem_mapSet hhk with h | h
        · rw [h] at hpl
          rcases mem_mapSet hpl with h2 | h2
          · rw [h, h2]
            exact hnew cacheEntry route
          · rw [h]
            exact ih _ hhost pl h2
        · exact ih hk h pl hpl
      | some location =>
        have hlocation : (route.Incoming.Path, location) ∈ host.Locations := mem_of_mapGet hl
        simp only [hl] at hhk
        by_cases ht : location.Server.Target = target route
        · simp only [ht, ne_eq, not_true_eq_false, if_false] at hhk
          exact ih hk hhk pl hpl
        · simp only [ht, ne_eq, not_false_eq_true, if_true] at hhk
          rcases mem_mapSet hhk with h | h
          · rw [h] at hpl
            rcases mem_mapSet hpl with h2 | h2
            · rw [h, h2]
              have hold := ih _ hhost _ hlocation
              have hstep := hupd cacheEntry route location hold
              simpa [stepLocation, ht] using hstep
            · rw [h]
              exact ih _ hhost pl h2
          · exact ih hk h pl hpl

/-- Every location of the routing model carries the secret of its namespace. -/
theorem location_secret_of_namespace (cache : Cache) :
    ∀ hk ∈ (routingModel cache).Hosts, ∀ pl ∈ hk.2.Locations,
      pl.2.Secret = locationSecret cache.Secrets pl.2.Namespace := by
  refine locations_induct cache
    (fun _ _ loc => loc.Secret = locationSecret cache.Secrets loc.Namespace) ?_ ?_
  · intro cacheEntry route
    rfl
  · intro cacheEntry route loc hloc
    unfold stepLocation
    by_cases ht : loc.Server.Target = target route
    · simpa [ht] using hloc
    · simpa [ht] using hloc

theorem base64Chars_ne_nil (bytes : List UInt8) (h : bytes ≠ []) : base64Chars bytes ≠ [] := by
  match bytes, h with
  | [_], _ => simp [base64Chars]
  | [_, _], _ => simp [base64Chars]
  | _ :: _ :: _ :: _, _ => simp [base64Chars]

theorem base64Encode_ne_empty (bytes : List UInt8) (h : bytes ≠ []) :
    base64Encode bytes ≠ "" := by
  intro he
  have hd : (base64Encode bytes).data = ("" : String).data := by rw [he]
  exact base64Chars_ne_nil bytes h hd

theorem join_cons (a : String) (l : List String) :
    String.join (a :: l) = a ++ String.join l := by
  apply String.ext
  simp [String.data_join, String.data_append]

theorem join_map_mem {α : Type} (f : α → String) (l : List α) (x : α) (hx : x ∈ l) :
    ∃ pre post : String, String.join (l.map f) = pre ++ f x ++ post := by
  induction l with
  | nil => simp at hx
  | cons a rest ih =>
    rcases List.mem_cons.mp hx with h | h
    · subst h
      refine ⟨"", String.join (rest.map f), ?_⟩
      rw [List.map_cons, join_cons]
      simp
    · obtain ⟨pre, post, hpp⟩ := ih h
      refine ⟨f a ++ pre, post, ?_⟩
      rw [List.map_cons, join_cons, hpp]
      simp [String.append_assoc]

/-- The block of every location of the model is a part of the document. -/
theorem renderLocation_in_renderConf (d : templateDataT) (hk : String × hostT)
    (hhk : hk ∈ d.Hosts) (pl : String × locationT) (hpl : pl ∈ hk.2.Locations) :
    ∃ pre post : String, renderConf d = pre ++ renderLocation pl.1 pl.2 ++ post := by
  obtain ⟨a, b, hab⟩ := join_map_mem (fun kv : String × locationT => renderLocation kv.1 kv.2)
    hk.2.Locations pl hpl
  obtain ⟨e, f, hef⟩ := join_map_mem (fun kv : String × hostT => renderHost kv.1 kv.2)
    d.Hosts hk hhk
  refine ⟨confHead ++ renderUpstreams d.Upstreams ++ e ++
      ("\n  server \x7b\n    listen 80;\n    server_name " ++ hk.1 ++ ";\n") ++ a,
    b ++ "  \x7d\n" ++ f ++ DefaultNginxServerConf ++ "\x7d\n", ?_⟩
  unfold renderConf renderHosts
  rw [hef]
  unfold renderHost
  rw [hab]
  simp only [String.append_assoc]

/-! ## Theorems -/

/-- C1: in the routing model built by `GetConf`, no upstream has two member
servers with the same `Target`: the list of member targets of every upstream has
no duplicates. -/
theorem upstream_targets_nodup (cache : Cache) (kv : String × upstreamT)
    (hkv : kv ∈ (routingModel cache).Upstreams) : (memberTargets kv.2).Nodup :=
  (upstreams_nodup_two cache kv hkv).1

/-- Witness of C1 on the cache of two pods: the two members of the upstream of
`a.com/` have different targets. -/
theorem upstream_targets_nodup_witness :
    (("a.com/",
      { Host := "a.com", Name := "microservice1276921464", Path := "/"
        Servers :=
          [{ IsUpstream := false, PodName := "p1", Target := "10.0.0.5:8080" },
            { IsUpstream := false, PodName := "p2", Target := "10.0.0.6:8080" }] }) :
        String × upstreamT) ∈ (routingModel cacheTwo).Upstreams ∧
    (memberTargets
      ({ Host := "a.com", Name := "microservice1276921464", Path := "/"
         Servers :=
          [{ IsUpstream := false, PodName := "p1", Target := "10.0.0.5:8080" },
            { IsUpstream := false, PodName := "p2", Target := "10.0.0.6:8080" }] } :
        upstreamT)).Nodup :=
  ⟨by decide,
    upstream_targets_nodup cacheTwo
      ("a.com/",
        { Host := "a.com", Name := "microservice1276921464", Path := "/"
          Servers :=
            [{ IsUpstream := false, PodName := "p1", Target := "10.0.0.5:8080" },
              { IsUpstream := false, PodName := "p2", Target := "10.0.0.6:8080" }] })
      (by decide)⟩

/-- C6: every upstream of the routing model is stored under the key `Host ++ Path`
of its own fields, and its name is `microservice` followed by the base-10
rendering of the 32-bit FNV-1a hash of that key; so two upstreams, of any two
caches walked in any order, with the same host and path have the same name. -/
theorem upstream_name_deterministic (cache : Cache) (kv : String × upstreamT)
    (hkv : kv ∈ (routingModel cache).Upstreams) :
    kv.1 = kv.2.Host ++ kv.2.Path ∧
    kv.2.Name = "microservice" ++ toString (Nginx.hash kv.1) ∧
    ∀ (other : Cache) (kv2 : String × upstreamT), kv2 ∈ (routingModel other).Upstreams →
      kv2.2.Host ++ kv2.2.Path = kv.2.Host ++ kv.2.Path → kv2.2.Name = kv.2.Name := by
  obtain ⟨h1, h2⟩ := upstreams_named cache kv hkv
  refine ⟨h1, h2, ?_⟩
  intro other kv2 hkv2 heq
  obtain ⟨g1, g2⟩ := upstreams_named other kv2 hkv2
  rw [g2, h2, g1, h1, heq]

/-- Witness of C6 on the cache of two pods: the upstream of `a.com/` is named
`microservice1276921464`. -/
theorem upstream_name_deterministic_witness :
    (("a.com/",
      { Host := "a.com", Name := "microservice1276921464", Path := "/"
        Servers :=
          [{ IsUpstream := false, PodName := "p1", Target := "10.0.0.5:8080" },
            { IsUpstream := false, PodName := "p2", Target := "10.0.0.6:8080" }] }) :
        String × upstreamT) ∈ (routingModel cacheTwo).Upstreams ∧
    "microservice1276921464" = "microservice" ++ toString (Nginx.hash "a.com/") :=
  ⟨by decide,
    (upstream_name_deterministic cacheTwo
      ("a.com/",
        { Host := "a.com", Name := "microservice1276921464", Path := "/"
          Servers :=
            [{ IsUpstream := false, PodName := "p1", Target := "10.0.0.5:8080" },
              { IsUpstream := false, PodName := "p2", Target := "10.0.0.6:8080" }] })
      (by decide)).2.1⟩

/-- C5: the target computed for a route is exactly the outgoing IP when the
outgoing port string is `80` or `443`, and exactly `IP ++ ":" ++ Port` for every
other port string; it is the target of the direct server that `GetConf` stores
for a cache made of one pod with that single route. -/
theorem target_default_port_elision (route : Route) :
    ((route.Outgoing.Port = "80" ∨ route.Outgoing.Port = "443") →
      target route = route.Outgoing.IP) ∧
    ((route.Outgoing.Port ≠ "80" ∧ route.Outgoing.Port ≠ "443") →
      target route = route.Outgoing.IP ++ ":" ++ route.Outgoing.Port) ∧
    ∀ (pod : PodT) (secrets : List (String × SecretT)),
      (locationAt (routingModel (singleRouteCache pod route secrets))
          route.Incoming.Host route.Incoming.Path).map
        (fun location => location.Server.Target) = some (target route) := by
  refine ⟨?_, ?_, ?_⟩
  · intro h
    unfold target
    rcases h with h | h <;> simp [h]
  · intro h
    unfold target
    simp [h.1, h.2]
  · intro pod secrets
    simp only [singleRouteCache, routingModel, processEntry, List.foldl_cons, List.foldl_nil]
    rw [processRoute_locationAt]
    simp [stepLocation, locationAt, mapGet]

/-- Witness of C5: port `80` is elided and port `8080` is kept. -/
theorem target_default_port_elision_witness :
    target routeA7 = "10.0.0.7" ∧ target routeA5 = "10.0.0.5" ++ ":" ++ "8080" :=
  ⟨(target_default_port_elision routeA7).1 (Or.inl rfl),
    (target_default_port_elision routeA5).2.1 ⟨by decide, by decide⟩⟩

/-- C7: when the cache has no pods, whatever its secrets, `GetConf` returns the
constant `DefaultNginxConf`. -/
theorem getConf_no_pods (cache : Cache) (h : cache.Pods.length = 0) :
    GetConf cache = DefaultNginxConf := by
  simp [GetConf, h]

/-- Witness of C7: a cache without pods and with one secret yields the default
document. -/
theorem getConf_no_pods_witness :
    GetConf { Pods := [], Secrets := [("ns1", { APIKey := [1, 2, 3] })] } =
      DefaultNginxConf :=
  getConf_no_pods { Pods := [], Secrets := [("ns1", { APIKey := [1, 2, 3] })] } rfl

/-- C2 as stated fails: the pods `podX1`, `podX2` (host `a.com`, path `/x/y`) and
`podY1`, `podY2` (host `a.com/x`, path `/y`) share the upstream key `a.com/x/y`,
and two orders of the same four pods give upstreams with different member
targets; and the pod whose target is the upstream name of `a.com/` is a member of
the upstream in one order of `podA5`, `podA6`, `podNamed` and not in another. -/
theorem aggregation_order_dependent :
    List.Perm [podX1, podX2, podY1, podY2] [podY1, podY2, podX1, podX2] ∧
    "10.0.1.1" ∈ upstreamTargets
      (routingModel { Pods := [podX1, podX2, podY1, podY2], Secrets := [] }) "a.com/x/y" ∧
    "10.0.1.1" ∉ upstreamTargets
      (routingModel { Pods := [podY1, podY2, podX1, podX2], Secrets := [] }) "a.com/x/y" ∧
    List.Perm [podA5, podA6, podNamed] [podNamed, podA5, podA6] ∧
    "microservice1276921464" ∉ upstreamTargets
      (routingModel { Pods := [podA5, podA6, podNamed], Secrets := [] }) "a.com/" ∧
    "microservice1276921464" ∈ upstreamTargets
      (routingModel { Pods := [podNamed, podA5, podA6], Secrets := [] }) "a.com/" := by
  decide

/-- C2, amended: walking the pods of a cache in two orders gives routing models
with the same set of hosts and the same set of paths under each host; and when
distinct (host, path) pairs of the routes have distinct concatenations
`host ++ path` and no route has a target equal to the upstream name of its own
`host ++ path`, the two models have the same upstream keys and, under each key,
the same set of member targets. -/
theorem aggregation_order_independent (secrets : List (String × SecretT))
    (pods1 pods2 : List PodWithRoutes) (hperm : pods1.Perm pods2) :
    (∀ h, h ∈ hostNames (routingModel { Pods := pods1, Secrets := secrets }) ↔
      h ∈ hostNames (routingModel { Pods := pods2, Secrets := secrets })) ∧
    (∀ h p, p ∈ pathsOf (routingModel { Pods := pods1, Secrets := secrets }) h ↔
      p ∈ pathsOf (routingModel { Pods := pods2, Secrets := secrets }) h) ∧
    (NoKeyCollision (stepsOf pods1) → NoTargetIsName (stepsOf pods1) →
      ∀ k,
        (k ∈ upstreamKeys (routingModel { Pods := pods1, Secrets := secrets }) ↔
          k ∈ upstreamKeys (routingModel { Pods := pods2, Secrets := secrets })) ∧
        ∀ t,
          t ∈ upstreamTargets (routingModel { Pods := pods1, Secrets := secrets }) k ↔
            t ∈ upstreamTargets (routingModel { Pods := pods2, Secrets := secrets }) k) := by
  have hmem : ∀ s, s ∈ stepsOf pods1 ↔ s ∈ stepsOf pods2 :=
    fun s => (stepsOf_perm hperm).mem_iff
  have hex : ∀ P : PodWithRoutes × Route → Prop,
      (∃ s ∈ stepsOf pods1, P s) ↔ ∃ s ∈ stepsOf pods2, P s := by
    intro P
    constructor
    · rintro ⟨s, hs, hP⟩
      exact ⟨s, (hmem s).mp hs, hP⟩
    · rintro ⟨s, hs, hP⟩
      exact ⟨s, (hmem s).mpr hs, hP⟩
  refine ⟨?_, ?_, ?_⟩
  · intro h
    rw [mem_hostNames_iff, mem_hostNames_iff]
    exact hex _
  · intro h p
    rw [mem_pathsOf_model_iff, mem_pathsOf_model_iff]
    exact hex _
  · intro hcol hname k
    have hcol2 : NoKeyCollision (stepsOf pods2) :=
      fun s hs s' hs' hk => hcol s ((hmem s).mpr hs) s' ((hmem s').mpr hs') hk
    have hname2 : NoTargetIsName (stepsOf pods2) :=
      fun s hs => hname s ((hmem s).mpr hs)
    have hpair : (∃ s1 ∈ stepsOf pods1, ∃ s2 ∈ stepsOf pods1, upstreamKey s1.2 = k ∧
        upstreamKey s2.2 = k ∧ target s1.2 ≠ target s2.2) ↔
        ∃ s1 ∈ stepsOf pods2, ∃ s2 ∈ stepsOf pods2, upstreamKey s1.2 = k ∧
          upstreamKey s2.2 = k ∧ target s1.2 ≠ target s2.2 := by
      constructor
      · rintro ⟨s1, hs1, s2, hs2, h⟩
        exact ⟨s1, (hmem s1).mp hs1, s2, (hmem s2).mp hs2, h⟩
      · rintro ⟨s1, hs1, s2, hs2, h⟩
        exact ⟨s1, (hmem s1).mpr hs1, s2, (hmem s2).mpr hs2, h⟩
    constructor
    · rw [mem_upstreamKeys_iff, mem_upstreamKeys_iff, routingModel_eq_runSteps,
        routingModel_eq_runSteps,
        (upstream_characterisation secrets (stepsOf pods1) hcol hname k).1,
        (upstream_characterisation secrets (stepsOf pods2) hcol2 hname2 k).1]
      exact hpair
    · intro t
      rw [routingModel_eq_runSteps, routingModel_eq_runSteps,
        mem_upstreamTargets_iff secrets (stepsOf pods1) hcol hname,
        mem_upstreamTargets_iff secrets (stepsOf pods2) hcol2 hname2, hpair, hex]

/-- Witness of C2, amended: the pods `podA5`, `podA6`, `podA7` walked in two
orders give the same member targets under the key `a.com/`. -/
theorem aggregation_order_independent_witness :
    List.Perm [podA5, podA6, podA7] [podA7, podA5, podA6] ∧
    NoKeyCollision (stepsOf [podA5, podA6, podA7]) ∧
    NoTargetIsName (stepsOf [podA5, podA6, podA7]) ∧
    ("10.0.0.7" ∈ upstreamTargets
        (routingModel { Pods := [podA5, podA6, podA7], Secrets := [] }) "a.com/" ↔
      "10.0.0.7" ∈ upstreamTargets
        (routingModel { Pods := [podA7, podA5, podA6], Secrets := [] }) "a.com/") :=
  ⟨by decide, by decide, by decide,
    ((aggregation_order_independent [] [podA5, podA6, podA7] [podA7, podA5, podA6]
      (by decide)).2.2 (by decide) (by decide) "a.com/").2 "10.0.0.7"⟩

/-- C3: for two pods with one route each to the same host and path and with
different targets, walked in either order, the location is pooled and the
upstream of its key, to which it refers by name, has exactly two members, one
per target; and with a third pod routed to the same host and path whose target
is one of those two, walked in any of the six orders, the upstream still has
exactly two members. -/
theorem promotion_two_members (secrets : List (String × SecretT))
    (p1 p2 p3 : PodWithRoutes) (r1 r2 r3 : Route)
    (h1 : p1.Routes = [r1]) (h2 : p2.Routes = [r2])
    (hi2 : r2.Incoming = r1.Incoming) (hne : target r1 ≠ target r2)
    (pods : List PodWithRoutes)
    (hp : pods.Perm [p1, p2] ∨
      (pods.Perm [p1, p2, p3] ∧ p3.Routes = [r3] ∧ r3.Incoming = r1.Incoming ∧
        (target r3 = target r1 ∨ target r3 = target r2))) :
    ∃ loc u,
      locationAt (routingModel { Pods := pods, Secrets := secrets })
        r1.Incoming.Host r1.Incoming.Path = some loc ∧
      loc.Server.IsUpstream = true ∧
      upstreamAt (routingModel { Pods := pods, Secrets := secrets })
        (r1.Incoming.Host ++ r1.Incoming.Path) = some u ∧
      loc.Server.Target = u.Name ∧
      u.Servers.length = 2 ∧
      (memberTargets u).Perm [target r1, target r2] := by
  have hsteps : (p1, r1) ∈ stepsOf pods ∧ (p2, r2) ∈ stepsOf pods ∧
      ∀ s ∈ stepsOf pods, s.2.Incoming = r1.Incoming ∧
        (target s.2 = target r1 ∨ target s.2 = target r2) := by
    rcases hp with hp | ⟨hp, h3, hi3, ht3⟩
    · refine ⟨?_, ?_, ?_⟩
      · rw [mem_stepsOf_iff]
        exact ⟨hp.mem_iff.mpr (by simp), by simp [h1]⟩
      · rw [mem_stepsOf_iff]
        exact ⟨hp.mem_iff.mpr (by simp), by simp [h2]⟩
      · intro s hs
        rw [mem_stepsOf_iff] at hs
        obtain ⟨hs1, hs2⟩ := hs
        have hs1 := hp.mem_iff.mp hs1
        simp only [List.mem_cons, List.mem_singleton, List.not_mem_nil, or_false] at hs1
        rcases hs1 with h | h
        · rw [h, h1, List.mem_singleton] at hs2
          rw [hs2]
          exact ⟨rfl, Or.inl rfl⟩
        · rw [h, h2, List.mem_singleton] at hs2
          rw [hs2]
          exact ⟨hi2, Or.inr rfl⟩
    · refine ⟨?_, ?_, ?_⟩
      · rw [mem_stepsOf_iff]
        exact ⟨hp.mem_iff.mpr (by simp), by simp [h1]⟩
      · rw [mem_stepsOf_iff]
        exact ⟨hp.mem_iff.mpr (by simp), by simp [h2]⟩
      · intro s hs
        rw [mem_stepsOf_iff] at hs
        obtain ⟨hs1, hs2⟩ := hs
        have hs1 := hp.mem_iff.mp hs1
        simp only [List.mem_cons, List.mem_singleton, List.not_mem_nil, or_false] at hs1
        rcases hs1 with h | h | h
        · rw [h, h1, List.mem_singleton] at hs2
          rw [hs2]
          exact ⟨rfl, Or.inl rfl⟩
        · rw [h, h2, List.mem_singleton] at hs2
          rw [hs2]
          exact ⟨hi2, Or.inr rfl⟩
        · rw [h, h3, List.mem_singleton] at hs2
          rw [hs2]
          exact ⟨hi3, ht3⟩
  obtain ⟨hm1, hm2, hall⟩ := hsteps
  obtain ⟨loc, u, hloc, hpool, hu, hname, hsub, _, hnd, hlen⟩ :=
    single_key_pool { Pods := pods, Secrets := secrets } r1.Incoming
      (fun s hs => (hall s hs).1) (p1, r1) (p2, r2) hm1 hm2 hne
  have hsubset : memberTargets u ⊆ [target r1, target r2] := by
    intro t ht
    obtain ⟨s, hs, hst⟩ := hsub t ht
    rw [← hst]
    rcases (hall s hs).2 with h | h
    · simp [h]
    · simp [h]
  have hperm : (memberTargets u).Perm [target r1, target r2] :=
    (List.subperm_of_subset hnd hsubset).perm_of_length_le
      (by simpa [memberTargets] using hlen)
  refine ⟨loc, u, hloc, hpool, hu, hname, ?_, hperm⟩
  have hl := hperm.length_eq
  simpa [memberTargets] using hl

/-- Witness of C3: `podA5` and `podA6` with the third pod `podA5b`, whose target
is the target of `podA5`, walked in the order `podA6`, `podA5b`, `podA5`. -/
theorem promotion_two_members_witness :
    ∃ loc u,
      locationAt (routingModel { Pods := [podA6, podA5b, podA5], Secrets := [] })
        "a.com" "/" = some loc ∧
      loc.Server.IsUpstream = true ∧
      upstreamAt (routingModel { Pods := [podA6, podA5b, podA5], Secrets := [] })
        ("a.com" ++ "/") = some u ∧
      loc.Server.Target = u.Name ∧
      u.Servers.length = 2 ∧
      (memberTargets u).Perm [target routeA5, target routeA6] :=
  promotion_two_members [] podA5 podA6 podA5b routeA5 routeA6 routeA5 rfl rfl rfl
    (by decide) [podA6, podA5b, podA5]
    (Or.inr ⟨by decide, rfl, rfl, Or.inl rfl⟩)

/-- C4 as stated fails: `podA5`, `podA6` and `podNamed` have one route each to
`a.com` `/` with three pairwise different targets, and walked in this order they
leave an upstream of two members. -/
theorem extension_three_members_fails :
    target routeA5 ≠ target routeA6 ∧
    (podNamed.Routes.map target = ["microservice1276921464"]) ∧
    target routeA5 ≠ "microservice1276921464" ∧
    target routeA6 ≠ "microservice1276921464" ∧
    (upstreamAt (routingModel { Pods := [podA5, podA6, podNamed], Secrets := [] })
      "a.com/").map (fun u => u.Servers.length) = some 2 := by
  decide

/-- C4, amended: for three pods with one route each to the same host and path,
with three pairwise different targets none of which equals the upstream name of
that host and path, walked in any order, the location is pooled and the upstream
of its key, to which it refers by name, has exactly three members, one per
target. -/
theorem extension_three_members (secrets : List (String × SecretT))
    (p1 p2 p3 : PodWithRoutes) (r1 r2 r3 : Route)
    (h1 : p1.Routes = [r1]) (h2 : p2.Routes = [r2]) (h3 : p3.Routes = [r3])
    (hi2 : r2.Incoming = r1.Incoming) (hi3 : r3.Incoming = r1.Incoming)
    (h12 : target r1 ≠ target r2) (h13 : target r1 ≠ target r3)
    (h23 : target r2 ≠ target r3)
    (hn1 : target r1 ≠ upstreamName (r1.Incoming.Host ++ r1.Incoming.Path))
    (hn2 : target r2 ≠ upstreamName (r1.Incoming.Host ++ r1.Incoming.Path))
    (hn3 : target r3 ≠ upstreamName (r1.Incoming.Host ++ r1.Incoming.Path))
    (pods : List PodWithRoutes) (hp : pods.Perm [p1, p2, p3]) :
    ∃ loc u,
      locationAt (routingModel { Pods := pods, Secrets := secrets })
        r1.Incoming.Host r1.Incoming.Path = some loc ∧
      loc.Server.IsUpstream = true ∧
      upstreamAt (routingModel { Pods := pods, Secrets := secrets })
        (r1.Incoming.Host ++ r1.Incoming.Path) = some u ∧
      loc.Server.Target = u.Name ∧
      u.Servers.length = 3 ∧
      (memberTargets u).Perm [target r1, target r2, target r3] := by
  have hm1 : (p1, r1) ∈ stepsOf pods := by
    rw [mem_stepsOf_iff]
    exact ⟨hp.mem_iff.mpr (by simp), by simp [h1]⟩
  have hm2 : (p2, r2) ∈ stepsOf pods := by
    rw [mem_stepsOf_iff]
    exact ⟨hp.mem_iff.mpr (by simp), by simp [h2]⟩
  have hm3 : (p3, r3) ∈ stepsOf pods := by
    rw [mem_stepsOf_iff]
    exact ⟨hp.mem_iff.mpr (by simp), by simp [h3]⟩
  have hall : ∀ s ∈ stepsOf pods, s.2.Incoming = r1.Incoming ∧
      (target s.2 = target r1 ∨ target s.2 = target r2 ∨ target s.2 = target r3) := by
    intro s hs
    rw [mem_stepsOf_iff] at hs
    obtain ⟨hs1, hs2⟩ := hs
    have hs1 := hp.mem_iff.mp hs1
    simp only [List.mem_cons, List.mem_singleton, List.not_mem_nil, or_false] at hs1
    rcases hs1 with h | h | h
    · rw [h, h1, List.mem_singleton] at hs2
      rw [hs2]
      exact ⟨rfl, Or.inl rfl⟩
    · rw [h, h2, List.mem_singleton] at hs2
      rw [hs2]
      exact ⟨hi2, Or.inr (Or.inl rfl)⟩
    · rw [h, h3, List.mem_singleton] at hs2
      rw [hs2]
      exact ⟨hi3, Or.inr (Or.inr rfl)⟩
  obtain ⟨loc, u, hloc, hpool, hu, hname, hsub, hsup, hnd, _⟩ :=
    single_key_pool { Pods := pods, Secrets := secrets } r1.Incoming
      (fun s hs => (hall s hs).1) (p1, r1) (p2, r2) hm1 hm2 h12
  have hnd3 : [target r1, target r2, target r3].Nodup := by
    simp [h12, h13, h23]
  have hperm : (memberTargets u).Perm [target r1, target r2, target r3] := by
    rw [List.perm_ext_iff_of_nodup hnd hnd3]
    intro t
    constructor
    · intro ht
      obtain ⟨s, hs, hst⟩ := hsub t ht
      rw [← hst]
      rcases (hall s hs).2 with h | h | h
      · simp [h]
      · simp [h]
      · simp [h]
    · intro ht
      simp only [List.mem_cons, List.mem_singleton, List.not_mem_nil, or_false] at ht
      rcases ht with h | h | h
      · rw [h]
        exact hsup (p1, r1) hm1 hn1
      · rw [h]
        exact hsup (p2, r2) hm2 hn2
      · rw [h]
        exact hsup (p3, r3) hm3 hn3
  refine ⟨loc, u, hloc, hpool, hu, hname, ?_, hperm⟩
  have hl := hperm.length_eq
  simpa [memberTargets] using hl

/-- Witness of C4, amended: `podA5`, `podA6`, `podA7` walked in the order
`podA7`, `podA5`, `podA6`. -/
theorem extension_three_members_witness :
    ∃ loc u,
      locationAt (routingModel { Pods := [podA7, podA5, podA6], Secrets := [] })
        "a.com" "/" = some loc ∧
      loc.Server.IsUpstream = true ∧
      upstreamAt (routingModel { Pods := [podA7, podA5, podA6], Secrets := [] })
        ("a.com" ++ "/") = some u ∧
      loc.Server.Target = u.Name ∧
      u.Servers.length = 3 ∧
      (memberTargets u).Perm [target routeA5, target routeA6, target routeA7] :=
  extension_three_members [] podA5 podA6 podA7 routeA5 routeA6 routeA7 rfl rfl rfl rfl rfl
    (by decide) (by decide) (by decide) (by decide) (by decide) (by decide)
    [podA7, podA5, podA6] (by decide)

/-- C8 as stated fails: in `cacheEmptyKey` the namespace `ns1` of the only
location has a secret registered in `Secrets`, whose access key is empty, and the
document has no guard in the block of the location. -/
theorem secret_gating_fails_on_empty_key :
    mapGet "ns1" cacheEmptyKey.Secrets = some { APIKey := [] } ∧
    (locationAt (routingModel cacheEmptyKey) "a.com" "/").map
      (fun location => location.Namespace) = some "ns1" ∧
    GetConf cacheEmptyKey = docEmptyKey := by
  set_option maxRecDepth 100000 in decide

/-- C8, amended: for every cache with at least one pod and every location of the
routing model, the block of the location is part of the document; when the
namespace of the location has a registered secret with a non-empty access key,
the block has the guard comparing the header `X-INGRESS-API-KEY` with the base64
of the key and returning 403, placed before the `proxy_pass` directive; when the
namespace has no registered secret, or a registered secret with an empty access
key, the block goes from the `proxy_set_header` line straight to the comment and
the `proxy_pass` directive, with no guard. -/
theorem secret_gating (cache : Cache) (hpods : cache.Pods.length ≠ 0)
    (hk : String × hostT) (hhk : hk ∈ (routingModel cache).Hosts)
    (pl : String × locationT) (hpl : pl ∈ hk.2.Locations) :
    (∃ pre post : String, GetConf cache = pre ++ renderLocation pl.1 pl.2 ++ post) ∧
    (∀ secret, mapGet pl.2.Namespace cache.Secrets = some secret → secret.APIKey ≠ [] →
      renderLocation pl.1 pl.2 =
        "\n    location " ++ pl.1 ++ " \x7b\n      proxy_set_header Host $host;\n      " ++
        "# Check the Ingress API Key (namespace: " ++ pl.2.Namespace ++
        ")\n      if ($http_x_ingress_api_key != \x27" ++ base64Encode secret.APIKey ++
        "\x27) \x7b\n        return 403;\n      \x7d\n      " ++
        serverComment pl.2.Server ++
        "\n      proxy_pass http://" ++ pl.2.Server.Target ++ ";\n    \x7d\n") ∧
    ((mapGet pl.2.Namespace cache.Secrets = none ∨
        mapGet pl.2.Namespace cache.Secrets = some { APIKey := [] }) →
      renderLocation pl.1 pl.2 =
        "\n    location " ++ pl.1 ++ " \x7b\n      proxy_set_header Host $host;\n      " ++
        serverComment pl.2.Server ++
        "\n      proxy_pass http://" ++ pl.2.Server.Target ++ ";\n    \x7d\n") := by
  have hsec := location_secret_of_namespace cache hk hhk pl hpl
  refine ⟨?_, ?_, ?_⟩
  · unfold GetConf
    rw [if_neg hpods]
    exact renderLocation_in_renderConf _ hk hhk pl hpl
  · intro secret hs hne
    have hne2 : pl.2.Secret ≠ "" := by
      rw [hsec]
      unfold locationSecret
      rw [hs]
      exact base64Encode_ne_empty _ hne
    have hval : pl.2.Secret = base64Encode secret.APIKey := by
      rw [hsec]
      unfold locationSecret
      rw [hs]
    unfold renderLocation
    rw [if_pos hne2, hval]
    simp only [locationHead, secretGuard, proxyPass, String.append_assoc]
  · intro hs
    have hempty : pl.2.Secret = "" := by
      rw [hsec]
      unfold locationSecret
      rcases hs with h | h
      · rw [h]
      · rw [h]
        rfl
    unfold renderLocation
    rw [hempty]
    simp only [locationHead, proxyPass, String.append_assoc, ne_eq, not_true_eq_false,
      if_false, String.empty_append]

/-- Witness of C8, amended: the location of `cacheWithKey`, whose namespace has the
access key bytes 1, 2, 3, 4, has the guard with the secret `AQIDBA==`. -/
theorem secret_gating_witness :
    cacheWithKey.Pods.length ≠ 0 ∧ hostWithKey ∈ (routingModel cacheWithKey).Hosts ∧
    locWithKey ∈ hostWithKey.2.Locations ∧
    renderLocation locWithKey.1 locWithKey.2 =
      "\n    location " ++ locWithKey.1 ++
      " \x7b\n      proxy_set_header Host $host;\n      " ++
      "# Check the Ingress API Key (namespace: " ++ locWithKey.2.Namespace ++
      ")\n      if ($http_x_ingress_api_key != \x27" ++ base64Encode [1, 2, 3, 4] ++
      "\x27) \x7b\n        return 403;\n      \x7d\n      " ++
      serverComment locWithKey.2.Server ++
      "\n      proxy_pass http://" ++ locWithKey.2.Server.Target ++ ";\n    \x7d\n" :=
  ⟨by decide, by decide, by decide,
    (secret_gating cacheWithKey (by decide) hostWithKey (by decide) locWithKey
      (by decide)).2.1 { APIKey := [1, 2, 3, 4] } (by decide) (by decide)⟩

/-- C9: for every cache with at least one pod, the document returned by `GetConf`
is the head of the template, the upstream blocks and the host server blocks,
followed by the default server block `DefaultNginxServerConf` (`listen 80
default_server`, `return 444`) and then only the closing brace of the `http`
block. -/
theorem default_server_last (cache : Cache) (hpods : cache.Pods.length ≠ 0) :
    GetConf cache =
      (confHead ++ renderUpstreams (routingModel cache).Upstreams ++
        renderHosts (routingModel cache).Hosts) ++
      DefaultNginxServerConf ++ "\x7d\n" ∧
    DefaultNginxServerConf =
      "\n  # Default server that will just close the connection as if there was no server available\n" ++
      "  server \x7b\n" ++
      "    listen 80 default_server;\n" ++
      "    return 444;\n" ++
      "  \x7d\n" := by
  constructor
  · unfold GetConf
    rw [if_neg hpods]
    rfl
  · decide

/-- Witness of C9 on the cache of two pods. -/
theorem default_server_last_witness :
    GetConf cacheTwo =
      (confHead ++ renderUpstreams (routingModel cacheTwo).Upstreams ++
        renderHosts (routingModel cacheTwo).Hosts) ++
      DefaultNginxServerConf ++ "\x7d\n" :=
  (default_server_last cacheTwo (by decide)).1

/-- C10, the code at the failing input: with `PORT` set to `8080`, which the port
validation accepts, `ConfigFromEnv` returns a configuration whose `Port` is 8080,
while the default document and every route-bearing document of `GetConf` have a
default server block that listens on port 80. -/
theorem listen_port_not_configured {Selector : Type} (lib : Ingress.Library Selector)
    (selector : Selector)
    (hhosts : lib.IsQualifiedName (lib.ToLower "routingHosts") = true)
    (hpaths : lib.IsQualifiedName (lib.ToLower "routingPaths") = true)
    (hport : lib.IsValidPort 8080 = true)
    (hsel : lib.Parse "routable=true" = some selector) :
    (∃ config, Ingress.ConfigFromEnv lib Ingress.envPort8080 = .ok config ∧
      config.Port = 8080) ∧
    GetConf { Pods := [], Secrets := [] } =
      "\n" ++
      "# A very simple nginx configuration file that forces nginx to start as a daemon.\n" ++
      "events \x7b\x7d\n" ++
      "http \x7b\n" ++
      "  # Default server that will just close the connection as if there was no server available\n" ++
      "  server \x7b\n" ++
      "    listen 80 default_server;\n" ++
      "    return 444;\n" ++
      "  \x7d\n" ++
      "\x7d\n" ++
      "daemon on;\n" ∧
    ∀ cache : Cache, cache.Pods.length ≠ 0 →
      GetConf cache =
        (confHead ++ renderUpstreams (routingModel cache).Upstreams ++
          renderHosts (routingModel cache).Hosts) ++
        ("\n  # Default server that will just close the connection as if there was no server available\n" ++
          "  server \x7b\n" ++
          "    listen 80 default_server;\n" ++
          "    return 444;\n" ++
          "  \x7d\n") ++
        "\x7d\n" := by
  refine ⟨?_, ?_, ?_⟩
  · have hatoi : Ingress.Atoi "8080" = some 8080 := by decide
    have henv : Ingress.envPort8080 Ingress.EnvVarPort = "8080" := by decide
    have h1 : Ingress.envPort8080 Ingress.EnvVarHostsAnnotation = "" := by decide
    have h2 : Ingress.envPort8080 Ingress.EnvVarPathsAnnotation = "" := by decide
    have h3 : Ingress.envPort8080 Ingress.EnvVarAPIKeySecretLocation = "" := by decide
    have h4 : Ingress.envPort8080 Ingress.EnvVarRoutableLabelSelector = "" := by decide
    have h5 : ("8080" : String) ≠ "" := by decide
    refine ⟨{ APIKeySecret := "routing", APIKeySecretDataField := "api-key"
              HostsAnnotation := "routingHosts", PathsAnnotation := "routingPaths"
              Port := 8080, RoutableLabelSelector := selector }, ?_, rfl⟩
    simp [Ingress.ConfigFromEnv, Ingress.apiKeySecretLocationParts, Ingress.portFromEnv,
      henv, h1, h2, h3, h4, h5, hatoi, hport, hsel, hhosts, hpaths,
      Ingress.DefaultHostsAnnotation, Ingress.DefaultPathsAnnotation,
      Ingress.DefaultRoutableLabelSelector, Ingress.DefaultAPIKeySecret,
      Ingress.DefaultAPIKeySecretDataField]
  · set_option maxRecDepth 100000 in decide
  · intro cache hpods
    have hd : DefaultNginxServerConf =
        "\n  # Default server that will just close the connection as if there was no server available\n" ++
          "  server \x7b\n" ++
          "    listen 80 default_server;\n" ++
          "    return 444;\n" ++
          "  \x7d\n" := by decide
    rw [← hd]
    unfold GetConf
    rw [if_neg hpods]
    rfl

/-- Witness of the evaluation for C10, with the stand-in library. -/
theorem listen_port_not_configured_witness :
    ∃ config, Ingress.ConfigFromEnv Ingress.permissiveLibrary Ingress.envPort8080 =
      .ok config ∧ config.Port = 8080 :=
  (listen_port_not_configured Ingress.permissiveLibrary "routable=true" rfl rfl
    (by decide) rfl).1

/-! ## Key order: the maps stay sorted and their keys stay distinct -/

theorem utf8Bytes_append_inj (c d : Nat) (hc : c < 0x110000) (hd : d < 0x110000)
    (X Y : List Nat) (h : utf8Bytes c ++ X = utf8Bytes d ++ Y) : c = d ∧ X = Y := by
  unfold utf8Bytes at h
  split_ifs at h <;>
    simp only [List.cons_append, List.nil_append, List.cons.injEq] at h <;>
    first
    | (exfalso; have h1 := h.1; omega)
    | (obtain ⟨h1, h2⟩ := h; exact ⟨by omega, h2⟩)
    | (obtain ⟨h1, h2, h3⟩ := h; exact ⟨by omega, h3⟩)
    | (obtain ⟨h1, h2, h3, h4⟩ := h; exact ⟨by omega, h4⟩)
    | (obtain ⟨h1, h2, h3, h4, h5⟩ := h; exact ⟨by omega, h5⟩)

theorem utf8Bytes_ne_nil (c : Nat) : utf8Bytes c ≠ [] := by
  unfold utf8Bytes
  split_ifs <;> simp

theorem char_toNat_lt (c : Char) : c.toNat < 0x110000 := by
  have h := c.valid
  unfold UInt32.isValidChar Nat.isValidChar at h
  unfold Char.toNat
  omega

theorem charBytes_injective (l1 l2 : List Char)
    (h : l1.flatMap (fun c => utf8Bytes c.toNat) = l2.flatMap (fun c => utf8Bytes c.toNat)) :
    l1 = l2 := by
  induction l1 generalizing l2 with
  | nil =>
    cases l2 with
    | nil => rfl
    | cons d l2 =>
      simp only [List.flatMap_nil, List.flatMap_cons] at h
      have hne := utf8Bytes_ne_nil d.toNat
      cases hb : utf8Bytes d.toNat with
      | nil => exact absurd hb hne
      | cons b bs =>
        rw [hb] at h
        simp at h
  | cons c l1 ih =>
    cases l2 with
    | nil =>
      simp only [List.flatMap_nil, List.flatMap_cons] at h
      have hne := utf8Bytes_ne_nil c.toNat
      cases hb : utf8Bytes c.toNat with
      | nil => exact absurd hb hne
      | cons b bs =>
        rw [hb] at h
        simp at h
    | cons d l2 =>
      simp only [List.flatMap_cons] at h
      obtain ⟨h1, h2⟩ := utf8Bytes_append_inj c.toNat d.toNat (char_toNat_lt c)
        (char_toNat_lt d) _ _ h
      have hcd : c = d := by
        apply Char.ext
        apply UInt32.ext
        exact h1
      rw [hcd, ih l2 h2]

theorem stringBytes_injective {a b : String} (h : stringBytes a = stringBytes b) : a = b := by
  unfold stringBytes at h
  exact String.ext (charBytes_injective _ _ h)

theorem keyLess_irrefl (a : String) : ¬ keyLess a a :=
  fun h => lt_irrefl (stringBytes a) h

theorem keyLess_trans {a b c : String} (h1 : keyLess a b) (h2 : keyLess b c) : keyLess a c :=
  lt_trans (a := stringBytes a) (b := stringBytes b) (c := stringBytes c) h1 h2

theorem keyLess_asymm {a b : String} (h1 : keyLess a b) : ¬ keyLess b a :=
  fun h2 => keyLess_irrefl a (keyLess_trans h1 h2)

theorem keyLess_of_not {a b : String} (hne : a ≠ b) (h : ¬ keyLess a b) : keyLess b a := by
  rcases lt_trichotomy (stringBytes a) (stringBytes b) with h1 | h1 | h1
  · exact absurd h1 h
  · exact absurd (stringBytes_injective h1) hne
  · exact h1

theorem keys_mapSet {V : Type} (k : String) (v : V) (m : List (String × V)) (x : String)
    (hx : x ∈ (mapSet k v m).map Prod.fst) : x = k ∨ x ∈ m.map Prod.fst := by
  simp only [List.mem_map] at hx
  obtain ⟨kv, hkv, rfl⟩ := hx
  rcases mem_mapSet hkv with h | h
  · left
    rw [h]
  · right
    exact List.mem_map.mpr ⟨kv, h, rfl⟩

theorem keysSorted_mapSet {V : Type} (k : String) (v : V) (m : List (String × V))
    (hm : keysSorted m) : keysSorted (mapSet k v m) := by
  induction m with
  | nil => simp [mapSet, keysSorted]
  | cons kv rest ih =>
    obtain ⟨k', v'⟩ := kv
    unfold keysSorted at hm
    simp only [List.map_cons, List.pairwise_cons] at hm
    obtain ⟨hhead, hrest⟩ := hm
    unfold mapSet
    by_cases h1 : k = k'
    · subst h1
      simp only [if_true]
      unfold keysSorted
      simp only [List.map_cons, List.pairwise_cons]
      exact ⟨hhead, hrest⟩
    · by_cases h2 : keyLess k k'
      · simp only [h1, h2, if_false, if_true]
        unfold keysSorted
        simp only [List.map_cons, List.pairwise_cons, List.mem_cons]
        refine ⟨?_, hhead, hrest⟩
        intro x hx
        rcases hx with hx | hx
        · rw [hx]
          exact h2
        · exact keyLess_trans h2 (hhead x hx)
      · simp only [h1, h2, if_false]
        unfold keysSorted
        simp only [List.map_cons, List.pairwise_cons]
        refine ⟨?_, ih hrest⟩
        intro x hx
        rcases keys_mapSet k v rest x hx with h | h
        · rw [h]
          exact keyLess_of_not h1 h2
        · exact hhead x h

/-- In a sorted map, an entry of the list is the entry that the lookup finds. -/
theorem mapGet_of_mem {V : Type} {k : String} {v : V} {m : List (String × V)}
    (hm : keysSorted m) (h : (k, v) ∈ m) : mapGet k m = some v := by
  induction m with
  | nil => simp at h
  | cons kv rest ih =>
    obtain ⟨k', v'⟩ := kv
    unfold keysSorted at hm
    simp only [List.map_cons, List.pairwise_cons] at hm
    obtain ⟨hhead, hrest⟩ := hm
    rcases List.mem_cons.mp h with h0 | h0
    · simp only [Prod.mk.injEq] at h0
      obtain ⟨rfl, rfl⟩ := h0
      simp [mapGet]
    · have hk : keyLess k' k := hhead k (List.mem_map.mpr ⟨(k, v), h0, rfl⟩)
      have hne : k ≠ k' := by
        rintro rfl
        exact keyLess_irrefl k hk
      unfold mapGet
      simp only [hne, if_false]
      exact ih hrest h0

/-- In a sorted map, writing back the value that is stored changes nothing. -/
theorem mapSet_eq_self {V : Type} {k : String} {v : V} {m : List (String × V)}
    (hm : keysSorted m) (h : mapGet k m = some v) : mapSet k v m = m := by
  induction m with
  | nil => simp [mapGet] at h
  | cons kv rest ih =>
    obtain ⟨k', v'⟩ := kv
    unfold keysSorted at hm
    simp only [List.map_cons, List.pairwise_cons] at hm
    obtain ⟨hhead, hrest⟩ := hm
    unfold mapGet at h
    unfold mapSet
    by_cases h1 : k = k'
    · subst h1
      simp only [if_true, Option.some.injEq] at h
      simp [h]
    · simp only [h1, if_false] at h
      have hk : keyLess k' k := hhead k (List.mem_map.mpr ⟨(k, v), mem_of_mapGet h, rfl⟩)
      simp only [h1, keyLess_asymm hk, if_false]
      rw [ih hrest h]

theorem modelSorted_processRoute (secrets : List (String × SecretT))
    (cacheEntry : PodWithRoutes) (d : templateDataT) (route : Route) (hd : ModelSorted d) :
    ModelSorted (processRoute secrets cacheEntry d route) := by
  obtain ⟨hH, hL, hU⟩ := hd
  have hups : keysSorted (processRoute secrets cacheEntry d route).Upstreams := by
    rw [processRoute_upstreams]
    unfold stepUpstreams
    cases locationAt d route.Incoming.Host route.Incoming.Path with
    | none => exact hU
    | some location =>
      by_cases ht : location.Server.Target = target route
      · simpa [ht] using hU
      · simp only [ne_eq, ht, not_false_eq_true, if_true]
        unfold updateUpstreams
        cases mapGet (upstreamKey route) d.Upstreams with
        | none => exact keysSorted_mapSet _ _ _ hU
        | some u =>
          by_cases hany : u.Servers.any (fun server => server.Target = target route) = true
          · simpa [hany] using hU
          · simp only [hany]
            exact keysSorted_mapSet _ _ _ hU
  have hnil : keysSorted ([] : List (String × locationT)) := by
    simp [keysSorted]
  refine ⟨?_, ?_, hups⟩
  · unfold processRoute
    cases hh : mapGet route.Incoming.Host d.Hosts with
    | none =>
      simp only [mapGet_mapSet_self, Option.getD_some, mapGet]
      exact keysSorted_mapSet _ _ _ (keysSorted_mapSet _ _ _ hH)
    | some host =>
      simp only [hh, Option.getD_some]
      cases hl : mapGet route.Incoming.Path host.Locations with
      | none =>
        simp only [hl]
        exact keysSorted_mapSet _ _ _ hH
      | some location =>
        simp only [hl]
        by_cases ht : location.Server.Target = target route
        · simpa [ht] using hH
        · simp only [ne_eq, ht, not_false_eq_true, if_true]
          exact keysSorted_mapSet _ _ _ hH
  · intro hk hhk
    unfold processRoute at hhk
    cases hh : mapGet route.Incoming.Host d.Hosts with
    | none =>
      simp only [hh, mapGet_mapSet_self, Option.getD_some, mapGet] at hhk
      rcases mem_mapSet hhk with h | h
      · rw [h]
        exact keysSorted_mapSet _ _ _ hnil
      · rcases mem_mapSet h with h2 | h2
        · rw [h2]
          exact hnil
        · exact hL hk h2
    | some host =>
      have hhost : keysSorted host.Locations := hL _ (mem_of_mapGet hh)
      simp only [hh, Option.getD_some] at hhk
      cases hl : mapGet route.Incoming.Path host.Locations with
      | none =>
        simp only [hl] at hhk
        rcases mem_mapSet hhk with h | h
        · rw [h]
          exact keysSorted_mapSet _ _ _ hhost
        · exact hL hk h
      | some location =>
        simp only [hl] at hhk
        by_cases ht : location.Server.Target = target route
        · simp only [ht, ne_eq, not_true_eq_false, if_false] at hhk
          exact hL hk hhk
        · simp only [ht, ne_eq, not_false_eq_true, if_true] at hhk
          rcases mem_mapSet hhk with h | h
          · rw [h]
            exact keysSorted_mapSet _ _ _ hhost
          · exact hL hk h

/-- The maps of the routing model are sorted by key, so their keys are distinct
and the walk over them is the sorted walk of the template. -/
theorem modelSorted_routingModel (cache : Cache) : ModelSorted (routingModel cache) := by
  refine routingModel_induct ModelSorted cache ?_ ?_
  · refine ⟨?_, ?_, ?_⟩
    · simp [keysSorted]
    · intro hk hhk
      simp at hhk
    · simp [keysSorted]
  · intro cacheEntry d route hd
    exact modelSorted_processRoute cache.Secrets cacheEntry d route hd

/-- The entries of the lists of the model are the entries found by lookup. -/
theorem mem_locations_iff (cache : Cache) (h p : String) (loc : locationT) :
    (∃ host, (h, host) ∈ (routingModel cache).Hosts ∧ (p, loc) ∈ host.Locations) ↔
      locationAt (routingModel cache) h p = some loc := by
  obtain ⟨hH, hL, _⟩ := modelSorted_routingModel cache
  unfold locationAt
  constructor
  · rintro ⟨host, hhost, hloc⟩
    rw [mapGet_of_mem hH hhost]
    exact mapGet_of_mem (hL _ hhost) hloc
  · intro hget
    cases hh : mapGet h (routingModel cache).Hosts with
    | none =>
      rw [hh] at hget
      exact Option.noConfusion hget
    | some host =>
      rw [hh] at hget
      exact ⟨host, mem_of_mapGet hh, mem_of_mapGet hget⟩

theorem mem_upstreams_iff (cache : Cache) (k : String) (u : upstreamT) :
    (k, u) ∈ (routingModel cache).Upstreams ↔ upstreamAt (routingModel cache) k = some u := by
  obtain ⟨_, _, hU⟩ := modelSorted_routingModel cache
  exact ⟨mapGet_of_mem hU, mem_of_mapGet⟩

/-! ## The decimal rendering of a hash determines the hash -/

theorem digitValue_digitChar (m : Nat) (hm : m < 10) :
    Ingress.digitValue (Nat.digitChar m) = some m := by
  interval_cases m <;> decide

theorem digitsValue_toDigitsCore (fuel n : Nat) (ds : List Char) (h : n < fuel) :
    Ingress.digitsValue 0 (Nat.toDigitsCore 10 fuel n ds) = Ingress.digitsValue n ds := by
  induction fuel generalizing n ds with
  | zero => omega
  | succ fuel ih =>
    unfold Nat.toDigitsCore
    by_cases h0 : n / 10 = 0
    · simp only [h0, if_true]
      conv_lhs => unfold Ingress.digitsValue
      rw [digitValue_digitChar (n % 10) (Nat.mod_lt _ (by omega))]
      have hn : 0 * 10 + n % 10 = n := by omega
      simp only [hn]
    · simp only [h0, if_false]
      rw [ih (n / 10) _ (by omega)]
      conv_lhs => unfold Ingress.digitsValue
      rw [digitValue_digitChar (n % 10) (Nat.mod_lt _ (by omega))]
      have hn : n / 10 * 10 + n % 10 = n := by omega
      simp only [hn]

theorem toString_nat_injective {a b : Nat} (h : toString a = toString b) : a = b := by
  have hd : Nat.toDigits 10 a = Nat.toDigits 10 b := by
    have h2 : (toString a).data = (toString b).data := by rw [h]
    exact h2
  have ha := digitsValue_toDigitsCore (a + 1) a [] (by omega)
  have hb := digitsValue_toDigitsCore (b + 1) b [] (by omega)
  unfold Nat.toDigits at hd
  rw [hd, hb] at ha
  simpa [Ingress.digitsValue] using ha.symm

theorem upstreamName_eq_iff (k1 k2 : String) :
    upstreamName k1 = upstreamName k2 ↔ Nginx.hash k1 = Nginx.hash k2 := by
  constructor
  · intro h
    unfold upstreamName at h
    have h2 : ("microservice" ++ toString (Nginx.hash k1)).data =
        ("microservice" ++ toString (Nginx.hash k2)).data := by rw [h]
    simp only [String.data_append, List.append_cancel_left_eq] at h2
    exact toString_nat_injective (String.ext h2)
  · intro h
    unfold upstreamName
    rw [h]

/-! ## Pooled locations -/

theorem upstreamAt_persist (secrets : List (String × SecretT)) (cacheEntry : PodWithRoutes)
    (d : templateDataT) (route : Route) (k : String) (h : upstreamAt d k ≠ none) :
    upstreamAt (processRoute secrets cacheEntry d route) k ≠ none := by
  rw [upstreamAt_processRoute]
  cases locationAt d route.Incoming.Host route.Incoming.Path with
  | none => exact h
  | some loc =>
    by_cases hc : loc.Server.Target ≠ target route ∧ k = upstreamKey route
    · simp only [hc, ne_eq, not_false_eq_true, and_self, if_true]
      exact Option.noConfusion
    · simp only [hc, if_false]
      exact h

/-- One step of the walk keeps the shape of pooled locations: the server is
`IsUpstream`, with no pod name and with the upstream name of the host and path of
the location as target, and an upstream is stored under that key. -/
theorem pooled_step (secrets : List (String × SecretT)) (cacheEntry : PodWithRoutes)
    (d : templateDataT) (route : Route)
    (ih : ∀ h p loc, locationAt d h p = some loc → loc.Server.IsUpstream = true →
      loc.Server = { IsUpstream := true, PodName := "", Target := upstreamName (h ++ p) } ∧
        upstreamAt d (h ++ p) ≠ none) :
    ∀ h p loc, locationAt (processRoute secrets cacheEntry d route) h p = some loc →
      loc.Server.IsUpstream = true →
      loc.Server = { IsUpstream := true, PodName := "", Target := upstreamName (h ++ p) } ∧
        upstreamAt (processRoute secrets cacheEntry d route) (h ++ p) ≠ none := by
  intro h p loc hloc hpool
  rw [processRoute_locationAt] at hloc
  by_cases hc : h = route.Incoming.Host ∧ p = route.Incoming.Path
  · rw [if_pos hc] at hloc
    obtain ⟨rfl, rfl⟩ := hc
    have hloc := Option.some.inj hloc
    cases hold : locationAt d route.Incoming.Host route.Incoming.Path with
    | none =>
      rw [hold] at hloc
      rw [← hloc] at hpool
      simp [stepLocation] at hpool
    | some l =>
      rw [hold] at hloc
      by_cases ht : l.Server.Target = target route
      · simp only [stepLocation, ht, ne_eq, not_true_eq_false, if_false] at hloc
        rw [← hloc] at hpool ⊢
        obtain ⟨h1, h2⟩ := ih _ _ l hold hpool
        exact ⟨h1, upstreamAt_persist _ _ _ _ _ h2⟩
      · simp only [stepLocation, ht, ne_eq, not_false_eq_true, if_true] at hloc
        rw [← hloc]
        refine ⟨rfl, ?_⟩
        rw [upstreamAt_processRoute, hold]
        have hk : route.Incoming.Host ++ route.Incoming.Path = upstreamKey route := rfl
        simp only [ne_eq, ht, not_false_eq_true, hk, and_self, if_true]
        exact Option.noConfusion
  · rw [if_neg hc] at hloc
    obtain ⟨h1, h2⟩ := ih h p loc hloc hpool
    exact ⟨h1, upstreamAt_persist _ _ _ _ _ h2⟩

/-- A pooled location has the server `IsUpstream`, with no pod name and with the
upstream name of its own host and path as target, and an upstream is stored under
the key of its host and path. -/
theorem pooled_lookup (cache : Cache) (h p : String) (loc : locationT)
    (hloc : locationAt (routingModel cache) h p = some loc)
    (hpool : loc.Server.IsUpstream = true) :
    loc.Server = { IsUpstream := true, PodName := "", Target := upstreamName (h ++ p) } ∧
      upstreamAt (routingModel cache) (h ++ p) ≠ none := by
  revert h p loc
  refine routingModel_induct (fun d => ∀ h p loc, locationAt d h p = some loc →
    loc.Server.IsUpstream = true →
    loc.Server = { IsUpstream := true, PodName := "", Target := upstreamName (h ++ p) } ∧
      upstreamAt d (h ++ p) ≠ none) cache ?_ ?_
  · intro h p loc hloc
    simp [locationAt, mapGet] at hloc
  · intro cacheEntry d route ih
    exact pooled_step cache.Secrets cacheEntry d route ih

/-- C11 as stated fails: in `cacheCollision` the location of `costarring.com` `/`
is pooled with target `microservice3622022975`, the name of the upstream under its
key `costarring.com/`, and the upstream stored under the other key `liquid.com/`
has that name too. -/
theorem pooled_reference_names_two_upstreams :
    (locationAt (routingModel cacheCollision) "costarring.com" "/").map
      (fun location => location.Server) =
      some { IsUpstream := true, PodName := "", Target := "microservice3622022975" } ∧
    (upstreamAt (routingModel cacheCollision) "costarring.com/").map
      (fun upstream => upstream.Name) = some "microservice3622022975" ∧
    (upstreamAt (routingModel cacheCollision) "liquid.com/").map
      (fun upstream => upstream.Name) = some "microservice3622022975" ∧
    (upstreamAt (routingModel cacheCollision) "liquid.com/").map memberTargets =
      some ["10.0.4.1", "10.0.4.2"] ∧
    (upstreamAt (routingModel cacheCollision) "costarring.com/").map memberTargets =
      some ["10.0.3.1", "10.0.3.2"] := by
  decide

/-- C11, amended: for every cache and every location of the routing model, at host
`h` and path `p`, whose server is pooled, the `Upstreams` map has an entry at the
key `h ++ p`, and the target of the location is the name of that entry; an upstream
of the model with that name is stored under a key with the same 32-bit FNV-1a
hash as `h ++ p`, and is that entry when its key is `h ++ p`. -/
theorem pooled_reference (cache : Cache) (hk : String × hostT)
    (hhk : hk ∈ (routingModel cache).Hosts) (pl : String × locationT)
    (hpl : pl ∈ hk.2.Locations) (hpool : pl.2.Server.IsUpstream = true) :
    ∃ u, upstreamAt (routingModel cache) (hk.1 ++ pl.1) = some u ∧
      (hk.1 ++ pl.1, u) ∈ (routingModel cache).Upstreams ∧
      pl.2.Server.Target = u.Name ∧
      ∀ kv ∈ (routingModel cache).Upstreams, kv.2.Name = pl.2.Server.Target →
        Nginx.hash kv.1 = Nginx.hash (hk.1 ++ pl.1) ∧ (kv.1 = hk.1 ++ pl.1 → kv.2 = u) := by
  have hloc : locationAt (routingModel cache) hk.1 pl.1 = some pl.2 :=
    (mem_locations_iff cache hk.1 pl.1 pl.2).mp ⟨hk.2, hhk, hpl⟩
  obtain ⟨hserver, hup⟩ := pooled_lookup cache hk.1 pl.1 pl.2 hloc hpool
  cases hu : upstreamAt (routingModel cache) (hk.1 ++ pl.1) with
  | none => exact absurd hu hup
  | some u =>
    have hmem : (hk.1 ++ pl.1, u) ∈ (routingModel cache).Upstreams := mem_of_mapGet hu
    have hname : u.Name = upstreamName (hk.1 ++ pl.1) := (upstreams_named cache _ hmem).2
    have htarget : pl.2.Server.Target = upstreamName (hk.1 ++ pl.1) := by
      rw [hserver]
    refine ⟨u, rfl, hmem, by rw [htarget, hname], ?_⟩
    intro kv hkv hkvname
    have hkvn : kv.2.Name = upstreamName kv.1 := (upstreams_named cache kv hkv).2
    constructor
    · rw [← upstreamName_eq_iff, ← hkvn, hkvname, htarget]
    · intro hkey
      have hget : upstreamAt (routingModel cache) kv.1 = some kv.2 :=
        (mem_upstreams_iff cache kv.1 kv.2).mp hkv
      rw [hkey, hu] at hget
      exact (Option.some.inj hget).symm

/-- Witness of C11, amended: the pooled location of the cache of two pods. -/
theorem pooled_reference_witness :
    hostPooled ∈ (routingModel cacheTwo).Hosts ∧ locPooled ∈ hostPooled.2.Locations ∧
    ∃ u, upstreamAt (routingModel cacheTwo) (hostPooled.1 ++ locPooled.1) = some u ∧
      (hostPooled.1 ++ locPooled.1, u) ∈ (routingModel cacheTwo).Upstreams ∧
      locPooled.2.Server.Target = u.Name ∧
      ∀ kv ∈ (routingModel cacheTwo).Upstreams, kv.2.Name = locPooled.2.Server.Target →
        Nginx.hash kv.1 = Nginx.hash (hostPooled.1 ++ locPooled.1) ∧
          (kv.1 = hostPooled.1 ++ locPooled.1 → kv.2 = u) :=
  ⟨by decide, by decide,
    pooled_reference cacheTwo hostPooled (by decide) locPooled (by decide) rfl⟩

/-! ## Rendering -/

theorem renderUpstream_in_renderConf (d : templateDataT) (kv : String × upstreamT)
    (hkv : kv ∈ d.Upstreams) :
    ∃ pre post : String, renderConf d = pre ++ renderUpstream kv.2 ++ post := by
  obtain ⟨a, b, hab⟩ := join_map_mem (fun x : String × upstreamT => renderUpstream x.2)
    d.Upstreams kv hkv
  refine ⟨confHead ++ a, b ++ renderHosts d.Hosts ++ DefaultNginxServerConf ++ "\x7d\n", ?_⟩
  unfold renderConf renderUpstreams
  rw [hab]
  simp only [String.append_assoc]

/-- C12: for every cache of one pod with one route and no secret for the
namespace of the pod, the routing model has no upstreams and one host with one
direct location, whose secret is empty and whose server is the pod with the
target of the route; and the document is the head of the template, one server
block with `server_name` the host, holding one location block for the path that
has no guard and proxies to `http://` followed by the target, and the default
server block. -/
theorem direct_route_end_to_end (pod : PodT) (route : Route)
    (secrets : List (String × SecretT)) (hsec : mapGet pod.Namespace secrets = none) :
    routingModel (singleRouteCache pod route secrets) =
      { Hosts :=
          [(route.Incoming.Host,
            { Locations :=
                [(route.Incoming.Path,
                  { Namespace := pod.Namespace
                    Path := route.Incoming.Path
                    Secret := ""
                    Server :=
                      { IsUpstream := false, PodName := pod.Name
                        Target := target route } })] })]
        Upstreams := [] } ∧
    GetConf (singleRouteCache pod route secrets) =
      confHead ++
      ("\n  server \x7b\n    listen 80;\n    server_name " ++ route.Incoming.Host ++ ";\n" ++
        ("\n    location " ++ route.Incoming.Path ++
          " \x7b\n      proxy_set_header Host $host;\n      " ++
          "# Pod " ++ pod.Name ++
          "\n      proxy_pass http://" ++ target route ++ ";\n    \x7d\n") ++
        "  \x7d\n") ++
      DefaultNginxServerConf ++ "\x7d\n" := by
  have hmodel : routingModel (singleRouteCache pod route secrets) =
      { Hosts :=
          [(route.Incoming.Host,
            { Locations :=
                [(route.Incoming.Path,
                  { Namespace := pod.Namespace
                    Path := route.Incoming.Path
                    Secret := ""
                    Server :=
                      { IsUpstream := false, PodName := pod.Name
                        Target := target route } })] })]
        Upstreams := [] } := by
    simp [routingModel, singleRouteCache, processEntry, processRoute, mapGet, mapSet,
      locationSecret, hsec]
  refine ⟨hmodel, ?_⟩
  have hpods : (singleRouteCache pod route secrets).Pods.length ≠ 0 := by
    simp [singleRouteCache]
  have hnil : String.join ([] : List String) = "" := rfl
  unfold GetConf
  rw [if_neg hpods, hmodel]
  simp only [renderConf, renderUpstreams, renderHosts, renderHost, renderLocation,
    locationHead, serverComment, proxyPass, List.map_cons, List.map_nil, join_cons,
    hnil, ne_eq, not_true_eq_false, if_false, Bool.false_eq_true,
    String.append_assoc, String.append_empty, String.empty_append]

/-- Witness of C12: host `a.com`, path `/`, `10.0.0.5` port `8080`, namespace `ns1`
without secret; the document has `proxy_pass http://10.0.0.5:8080`. -/
theorem direct_route_end_to_end_witness :
    mapGet "ns1" ([] : List (String × SecretT)) = none ∧
    GetConf (singleRouteCache { Name := "p1", Namespace := "ns1" } routeA5 []) =
      docEmptyKey :=
  ⟨rfl,
    (direct_route_end_to_end { Name := "p1", Namespace := "ns1" } routeA5 [] rfl).2.trans
      (by set_option maxRecDepth 100000 in decide)⟩

/-- C13: for every cache with at least one pod, the document contains, for each
upstream of the routing model, its block: the comment line, `upstream` followed by
the name and an opening brace, then for each member in member order a comment
line with the pod name and the line `server` followed by the target, then the
closing brace; and the block of each pooled location, which is part of the
document, ends with the comment `# Upstream` and `proxy_pass http://` followed by
the name of the upstream stored under the key of its host and path. -/
theorem pools_rendered (cache : Cache) (hpods : cache.Pods.length ≠ 0) :
    (∀ kv ∈ (routingModel cache).Upstreams,
      (∃ pre post : String, GetConf cache = pre ++ renderUpstream kv.2 ++ post) ∧
      renderUpstream kv.2 =
        "\n  # Upstream for " ++ kv.2.Path ++ " traffic on " ++ kv.2.Host ++
        "\n  upstream " ++ kv.2.Name ++ " \x7b\n" ++
        String.join (kv.2.Servers.map (fun server =>
          "    # Pod " ++ server.PodName ++ "\n    server " ++ server.Target ++ ";\n")) ++
        "  \x7d\n") ∧
    ∀ hk ∈ (routingModel cache).Hosts, ∀ pl ∈ hk.2.Locations,
      pl.2.Server.IsUpstream = true →
      ∃ u, upstreamAt (routingModel cache) (hk.1 ++ pl.1) = some u ∧
        (∃ pre post : String, GetConf cache = pre ++ renderLocation pl.1 pl.2 ++ post) ∧
        renderLocation pl.1 pl.2 =
          "\n    location " ++ pl.1 ++ " \x7b\n      proxy_set_header Host $host;\n      " ++
          (if pl.2.Secret ≠ "" then secretGuard pl.2.Namespace pl.2.Secret else "") ++
          "# Upstream " ++ u.Name ++
          "\n      proxy_pass http://" ++ u.Name ++ ";\n    \x7d\n" := by
  have hconf : GetConf cache = renderConf (routingModel cache) := by
    unfold GetConf
    rw [if_neg hpods]
  constructor
  · intro kv hkv
    refine ⟨?_, rfl⟩
    rw [hconf]
    exact renderUpstream_in_renderConf _ kv hkv
  · intro hk hhk pl hpl hpool
    have hloc : locationAt (routingModel cache) hk.1 pl.1 = some pl.2 :=
      (mem_locations_iff cache hk.1 pl.1 pl.2).mp ⟨hk.2, hhk, hpl⟩
    obtain ⟨hserver, hup⟩ := pooled_lookup cache hk.1 pl.1 pl.2 hloc hpool
    cases hu : upstreamAt (routingModel cache) (hk.1 ++ pl.1) with
    | none => exact absurd hu hup
    | some u =>
      have hname : u.Name = upstreamName (hk.1 ++ pl.1) :=
        (upstreams_named cache _ (mem_of_mapGet hu)).2
      refine ⟨u, rfl, ?_, ?_⟩
      · rw [hconf]
        exact renderLocation_in_renderConf _ hk hhk pl hpl
      · unfold renderLocation
        rw [hname]
        simp only [locationHead, serverComment, proxyPass, hserver, if_true,
          String.append_assoc]

/-- Witness of C13: the two pods on `a.com` `/` with targets `10.0.0.5:8080` and
`10.0.0.6:8080` give one upstream block with those two server lines. -/
theorem pools_rendered_witness :
    cacheTwo.Pods.length ≠ 0 ∧ upstreamTwo ∈ (routingModel cacheTwo).Upstreams ∧
    renderUpstream upstreamTwo.2 =
      "\n  # Upstream for / traffic on a.com\n" ++
      "  upstream microservice1276921464 \x7b\n" ++
      "    # Pod p1\n" ++
      "    server 10.0.0.5:8080;\n" ++
      "    # Pod p2\n" ++
      "    server 10.0.0.6:8080;\n" ++
      "  \x7d\n" :=
  ⟨by decide, by decide,
    ((pools_rendered cacheTwo (by decide)).1 upstreamTwo (by decide)).2.trans (by decide)⟩

/-! ## Membership of upstreams -/

/-- C14: for every cache in which distinct (host, path) pairs of the routes have
distinct concatenations `host ++ path` and no route has a target equal to the
upstream name of its own `host ++ path`, a location of the routing model is pooled
exactly when two routes to its host and path have different targets; when it is
pooled, the member targets of the upstream under its key, to which it refers by
name, are exactly the targets of the routes to its host and path; otherwise it is
direct, no upstream is stored under its key, and its target is the target of every
route to its host and path. -/
theorem membership_is_distinct_targets (secrets : List (String × SecretT))
    (pods : List PodWithRoutes) (hcol : NoKeyCollision (stepsOf pods))
    (hname : NoTargetIsName (stepsOf pods)) (hk : String × hostT)
    (hhk : hk ∈ (routingModel { Pods := pods, Secrets := secrets }).Hosts)
    (pl : String × locationT) (hpl : pl ∈ hk.2.Locations) :
    (pl.2.Server.IsUpstream = true ↔
      ∃ s1 ∈ stepsOf pods, ∃ s2 ∈ stepsOf pods,
        (s1.2.Incoming.Host = hk.1 ∧ s1.2.Incoming.Path = pl.1) ∧
        (s2.2.Incoming.Host = hk.1 ∧ s2.2.Incoming.Path = pl.1) ∧
        target s1.2 ≠ target s2.2) ∧
    (pl.2.Server.IsUpstream = true →
      ∃ u, upstreamAt (routingModel { Pods := pods, Secrets := secrets }) (hk.1 ++ pl.1) =
          some u ∧
        pl.2.Server.Target = u.Name ∧
        ∀ t, t ∈ memberTargets u ↔
          ∃ s ∈ stepsOf pods,
            (s.2.Incoming.Host = hk.1 ∧ s.2.Incoming.Path = pl.1) ∧ target s.2 = t) ∧
    (pl.2.Server.IsUpstream = false →
      upstreamAt (routingModel { Pods := pods, Secrets := secrets }) (hk.1 ++ pl.1) = none ∧
      (∃ s ∈ stepsOf pods, s.2.Incoming.Host = hk.1 ∧ s.2.Incoming.Path = pl.1) ∧
      ∀ s ∈ stepsOf pods, s.2.Incoming.Host = hk.1 ∧ s.2.Incoming.Path = pl.1 →
        target s.2 = pl.2.Server.Target) := by
  have hloc : locationAt (routingModel { Pods := pods, Secrets := secrets }) hk.1 pl.1 =
      some pl.2 := (mem_locations_iff _ hk.1 pl.1 pl.2).mp ⟨hk.2, hhk, hpl⟩
  have hinv := keyInv_runSteps secrets (stepsOf pods) hcol
  have hmodel : routingModel { Pods := pods, Secrets := secrets } =
      runSteps secrets { Hosts := [], Upstreams := [] } (stepsOf pods) :=
    routingModel_eq_runSteps _
  rw [← hmodel] at hinv
  obtain ⟨hlocs, _, hmain⟩ := hinv
  obtain ⟨s0, hs0, hs0h, hs0p⟩ := hlocs hk.1 pl.1 (by rw [hloc]; exact Option.noConfusion)
  have hkey0 : upstreamKey s0.2 = hk.1 ++ pl.1 := by
    unfold upstreamKey
    rw [hs0h, hs0p]
  have hkey : ∀ s ∈ stepsOf pods, (s.2.Incoming.Host = hk.1 ∧ s.2.Incoming.Path = pl.1) →
      upstreamKey s.2 = hk.1 ++ pl.1 := by
    intro s _ hsat
    unfold upstreamKey
    rw [hsat.1, hsat.2]
  have hat : ∀ s ∈ stepsOf pods, upstreamKey s.2 = hk.1 ++ pl.1 →
      (s.2.Incoming.Host = hk.1 ∧ s.2.Incoming.Path = pl.1) := by
    intro s hs hks
    have hinc := hcol s hs s0 hs0 (hks.trans hkey0.symm)
    rw [hinc]
    exact ⟨hs0h, hs0p⟩
  obtain ⟨loc, hloc0, hA, hB⟩ := hmain s0 hs0
  rw [hs0h, hs0p, hloc] at hloc0
  have hloceq : loc = pl.2 := (Option.some.inj hloc0).symm
  subst hloceq
  rw [hkey0] at hA hB
  cases hu : upstreamAt (routingModel { Pods := pods, Secrets := secrets }) (hk.1 ++ pl.1) with
  | none =>
    obtain ⟨hA1, hA2⟩ := hA hu
    refine ⟨?_, ?_, ?_⟩
    · constructor
      · intro hp
        rw [hA1] at hp
        exact absurd hp (by decide)
      · rintro ⟨s1, hs1, s2, hs2, h1, h2, hne⟩
        exact absurd ((hA2 s1 hs1 (hkey s1 hs1 h1)).trans (hA2 s2 hs2 (hkey s2 hs2 h2)).symm) hne
    · intro hp
      rw [hA1] at hp
      exact absurd hp (by decide)
    · intro _
      exact ⟨rfl, ⟨s0, hs0, hs0h, hs0p⟩, fun s hs hsat => hA2 s hs (hkey s hs hsat)⟩
  | some u =>
    obtain ⟨hB1, hB2, hB3, hB4, s1, hs1, s2, hs2, hk1, hk2, hne⟩ := hB u hu
    have hun : u.Name = upstreamName (hk.1 ++ pl.1) :=
      (upstreams_named _ _ (mem_of_mapGet hu)).2
    refine ⟨?_, ?_, ?_⟩
    · constructor
      · intro _
        exact ⟨s1, hs1, s2, hs2, hat s1 hs1 hk1, hat s2 hs2 hk2, hne⟩
      · intro _
        exact hB1
    · intro _
      refine ⟨u, rfl, by rw [hB2, hun], ?_⟩
      intro t
      constructor
      · intro ht
        obtain ⟨s, hs, hks, hst⟩ := hB3 t ht
        exact ⟨s, hs, hat s hs hks, hst⟩
      · rintro ⟨s, hs, hsat, rfl⟩
        have hks := hkey s hs hsat
        refine hB4 s hs hks ?_
        rw [← hks]
        exact hname s hs
    · intro hp
      rw [hB1] at hp
      exact absurd hp (by decide)

/-- Witness of C14: the pooled location of the cache of two pods. -/
theorem membership_is_distinct_targets_witness :
    NoKeyCollision (stepsOf [podA5, podA6]) ∧ NoTargetIsName (stepsOf [podA5, podA6]) ∧
    hostPooled ∈ (routingModel { Pods := [podA5, podA6], Secrets := [] }).Hosts ∧
    locPooled ∈ hostPooled.2.Locations ∧
    (locPooled.2.Server.IsUpstream = true ↔
      ∃ s1 ∈ stepsOf [podA5, podA6], ∃ s2 ∈ stepsOf [podA5, podA6],
        (s1.2.Incoming.Host = hostPooled.1 ∧ s1.2.Incoming.Path = locPooled.1) ∧
        (s2.2.Incoming.Host = hostPooled.1 ∧ s2.2.Incoming.Path = locPooled.1) ∧
        target s1.2 ≠ target s2.2) :=
  ⟨by decide, by decide, by decide, by decide,
    (membership_is_distinct_targets [] [podA5, podA6] (by decide) (by decide) hostPooled
      (by decide) locPooled (by decide)).1⟩

/-! ## The namespace and the secret of a location -/

theorem stepLocation_keeps_secret (secrets : List (String × SecretT))
    (cacheEntry : PodWithRoutes) (route : Route) (l : locationT) :
    (stepLocation secrets cacheEntry route (some l)).Namespace = l.Namespace ∧
      (stepLocation secrets cacheEntry route (some l)).Secret = l.Secret := by
  unfold stepLocation
  by_cases ht : l.Server.Target = target route
  · simp [ht]
  · simp [ht]

theorem secret_runSteps (secrets : List (String × SecretT))
    (steps : List (PodWithRoutes × Route)) (d : templateDataT) (h p : String) :
    (locationAt (runSteps secrets d steps) h p).map
        (fun l => (l.Namespace, l.Secret)) =
      match locationAt d h p with
      | some l => some (l.Namespace, l.Secret)
      | none =>
        (steps.find? (fun s => decide (s.2.Incoming.Host = h ∧ s.2.Incoming.Path = p))).map
          (fun s => (s.1.Pod.Namespace, locationSecret secrets s.1.Pod.Namespace)) := by
  induction steps generalizing d with
  | nil =>
    have hrun : runSteps secrets d [] = d := rfl
    rw [hrun]
    cases hl : locationAt d h p <;> simp
  | cons s0 rest ih =>
    have hrun : runSteps secrets d (s0 :: rest) =
        runSteps secrets (processRoute secrets s0.1 d s0.2) rest := rfl
    rw [hrun, ih, processRoute_locationAt]
    by_cases hc : h = s0.2.Incoming.Host ∧ p = s0.2.Incoming.Path
    · obtain ⟨rfl, rfl⟩ := hc
      simp only [and_self, if_true]
      cases hold : locationAt d s0.2.Incoming.Host s0.2.Incoming.Path with
      | none => simp [stepLocation, List.find?]
      | some l =>
        obtain ⟨h1, h2⟩ := stepLocation_keeps_secret secrets s0.1 s0.2 l
        simp only [h1, h2]
    · have hc2 : ¬(s0.2.Incoming.Host = h ∧ s0.2.Incoming.Path = p) :=
        fun hx => hc ⟨hx.1.symm, hx.2.symm⟩
      simp only [hc, if_false]
      cases locationAt d h p with
      | some l => rfl
      | none => simp [List.find?, hc2]

/-- C15: for every cache and processing order, the namespace and the secret of the
location at a host and path are those of the first step of the walk that has a
route to that host and path: the namespace of its pod and the base64 of the access
key of the secret of that namespace, or the empty string when the namespace has
no secret; and a step of the walk never changes the namespace or the secret of a
location that exists, also when it turns the location into a pooled one. -/
theorem first_pod_decides_secret (secrets : List (String × SecretT))
    (pods : List PodWithRoutes) (h p : String) :
    (locationAt (routingModel { Pods := pods, Secrets := secrets }) h p).map
        (fun l => (l.Namespace, l.Secret)) =
      ((stepsOf pods).find?
          (fun s => decide (s.2.Incoming.Host = h ∧ s.2.Incoming.Path = p))).map
        (fun s =>
          (s.1.Pod.Namespace,
            match mapGet s.1.Pod.Namespace secrets with
            | some secret => base64Encode secret.APIKey
            | none => "")) ∧
    ∀ (d : templateDataT) (cacheEntry : PodWithRoutes) (route : Route) (l : locationT),
      locationAt d h p = some l →
      ∃ l2, locationAt (processRoute secrets cacheEntry d route) h p = some l2 ∧
        l2.Namespace = l.Namespace ∧ l2.Secret = l.Secret := by
  constructor
  · rw [routingModel_eq_runSteps, secret_runSteps]
    rfl
  · intro d cacheEntry route l hl
    rw [processRoute_locationAt]
    by_cases hc : h = route.Incoming.Host ∧ p = route.Incoming.Path
    · obtain ⟨rfl, rfl⟩ := hc
      simp only [and_self, if_true, hl]
      exact ⟨_, rfl, stepLocation_keeps_secret secrets cacheEntry route l⟩
    · simp only [hc, if_false]
      exact ⟨l, hl, rfl, rfl⟩

/-- Witness of C15: the first pod walked is of namespace `ns2`, which has the
access key bytes 1, 2, 3, 4, and the second of namespace `ns1`, which has no
secret; the location keeps the namespace and the secret of the first, also in the
step that makes it pooled. -/
theorem first_pod_decides_secret_witness :
    (locationAt (routingModel (Cache.mk [podOtherNs, podA6] secretsNs2)) "a.com" "/").map
      (fun l => (l.Namespace, l.Secret)) = some ("ns2", "AQIDBA==") ∧
    ∃ l2, locationAt (processRoute secretsNs2 podA6
        (routingModel (Cache.mk [podOtherNs] secretsNs2)) routeA6) "a.com" "/" = some l2 ∧
      l2.Namespace = "ns2" ∧ l2.Secret = "AQIDBA==" :=
  ⟨(first_pod_decides_secret secretsNs2 [podOtherNs, podA6] "a.com" "/").1.trans (by decide),
    (first_pod_decides_secret secretsNs2 [podOtherNs, podA6] "a.com" "/").2
      (routingModel (Cache.mk [podOtherNs] secretsNs2)) podA6 routeA6
      { Namespace := "ns2", Path := "/", Secret := "AQIDBA=="
        Server := { IsUpstream := false, PodName := "q1", Target := "10.0.0.5:8080" } }
      (by decide)⟩

/-! ## Coverage of the routes -/

theorem mapSet_ne_nil {V : Type} (k : String) (v : V) (m : List (String × V)) :
    mapSet k v m ≠ [] := by
  cases m with
  | nil => simp [mapSet]
  | cons kv rest =>
    obtain ⟨k', v'⟩ := kv
    unfold mapSet
    split_ifs <;> simp

theorem hosts_nonempty_step (secrets : List (String × SecretT)) (cacheEntry : PodWithRoutes)
    (d : templateDataT) (route : Route)
    (ih : ∀ h host, mapGet h d.Hosts = some host → host.Locations ≠ []) :
    ∀ h host, mapGet h (processRoute secrets cacheEntry d route).Hosts = some host →
      host.Locations ≠ [] := by
  intro h host hget
  unfold processRoute at hget
  cases hh : mapGet route.Incoming.Host d.Hosts with
  | none =>
    simp only [hh, mapGet_mapSet_self, Option.getD_some, mapGet] at hget
    by_cases h1 : h = route.Incoming.Host
    · subst h1
      rw [mapGet_mapSet_self] at hget
      rw [← Option.some.inj hget]
      exact mapSet_ne_nil _ _ _
    · rw [mapGet_mapSet_of_ne h1, mapGet_mapSet_of_ne h1] at hget
      exact ih h host hget
  | some host0 =>
    simp only [hh, Option.getD_some] at hget
    cases hl : mapGet route.Incoming.Path host0.Locations with
    | none =>
      simp only [hl] at hget
      by_cases h1 : h = route.Incoming.Host
      · subst h1
        rw [mapGet_mapSet_self] at hget
        rw [← Option.some.inj hget]
        exact mapSet_ne_nil _ _ _
      · rw [mapGet_mapSet_of_ne h1] at hget
        exact ih h host hget
    | some location =>
      simp only [hl] at hget
      by_cases ht : location.Server.Target = target route
      · simp only [ht, ne_eq, not_true_eq_false, if_false] at hget
        exact ih h host hget
      · simp only [ht, ne_eq, not_false_eq_true, if_true] at hget
        by_cases h1 : h = route.Incoming.Host
        · subst h1
          rw [mapGet_mapSet_self] at hget
          rw [← Option.some.inj hget]
          exact mapSet_ne_nil _ _ _
        · rw [mapGet_mapSet_of_ne h1] at hget
          exact ih h host hget

theorem location_path_field (cache : Cache) :
    ∀ hk ∈ (routingModel cache).Hosts, ∀ pl ∈ hk.2.Locations, pl.2.Path = pl.1 := by
  refine locations_induct cache (fun _ p loc => loc.Path = p) ?_ ?_
  · intro cacheEntry route
    rfl
  · intro cacheEntry route loc hloc
    unfold stepLocation
    by_cases ht : loc.Server.Target = target route
    · simpa [ht] using hloc
    · simpa [ht] using hloc

/-- C16: for every cache, the (host, path) pairs that have a location in the
routing model are exactly the pairs (`Incoming.Host`, `Incoming.Path`) of the
routes of the pods of the cache; every host entry has at least one location; and
the `Path` field of every location is the path key under which it is stored. -/
theorem route_coverage (cache : Cache) :
    (∀ h p, (∃ host loc, (h, host) ∈ (routingModel cache).Hosts ∧ (p, loc) ∈ host.Locations) ↔
      ∃ e ∈ cache.Pods, ∃ r ∈ e.Routes, r.Incoming.Host = h ∧ r.Incoming.Path = p) ∧
    (∀ hk ∈ (routingModel cache).Hosts, hk.2.Locations ≠ []) ∧
    (∀ hk ∈ (routingModel cache).Hosts, ∀ pl ∈ hk.2.Locations, pl.2.Path = pl.1) := by
  refine ⟨?_, ?_, location_path_field cache⟩
  · intro h p
    have h1 : (∃ host loc, (h, host) ∈ (routingModel cache).Hosts ∧ (p, loc) ∈ host.Locations) ↔
        (locationAt (routingModel cache) h p).isSome = true := by
      constructor
      · rintro ⟨host, loc, hhost, hloc⟩
        rw [(mem_locations_iff cache h p loc).mp ⟨host, hhost, hloc⟩]
        rfl
      · intro hsome
        cases hl : locationAt (routingModel cache) h p with
        | none =>
          rw [hl] at hsome
          exact absurd hsome (by decide)
        | some loc =>
          obtain ⟨host, hhost, hloc⟩ := (mem_locations_iff cache h p loc).mpr hl
          exact ⟨host, loc, hhost, hloc⟩
    rw [h1, routingModel_eq_runSteps, locationSome_runSteps]
    have hempty : (locationAt { Hosts := [], Upstreams := [] } h p).isSome = false := rfl
    simp only [hempty, Bool.false_eq_true, or_false]
    constructor
    · rintro ⟨s, hs, hsh, hsp⟩
      rw [mem_stepsOf_iff] at hs
      exact ⟨s.1, hs.1, s.2, hs.2, hsh, hsp⟩
    · rintro ⟨e, he, r, hr, hrh, hrp⟩
      exact ⟨(e, r), (mem_stepsOf_iff cache.Pods (e, r)).mpr ⟨he, hr⟩, hrh, hrp⟩
  · intro hk hhk
    obtain ⟨hH, _, _⟩ := modelSorted_routingModel cache
    have hget : mapGet hk.1 (routingModel cache).Hosts = some hk.2 := mapGet_of_mem hH hhk
    have hall : ∀ h host, mapGet h (routingModel cache).Hosts = some host →
        host.Locations ≠ [] := by
      refine routingModel_induct (fun d => ∀ h host, mapGet h d.Hosts = some host →
        host.Locations ≠ []) cache ?_ ?_
      · intro h host hg
        simp [mapGet] at hg
      · intro cacheEntry d route ih
        exact hosts_nonempty_step cache.Secrets cacheEntry d route ih
    exact hall hk.1 hk.2 hget

/-- Witness of C16 on the cache of two pods: `a.com` `/` has a location, the host
entry is not empty and the location has the path `/`. -/
theorem route_coverage_witness :
    ((∃ host loc, ("a.com", host) ∈ (routingModel cacheTwo).Hosts ∧
        (("/", loc) : String × locationT) ∈ host.Locations) ↔
      ∃ e ∈ cacheTwo.Pods, ∃ r ∈ e.Routes, r.Incoming.Host = "a.com" ∧ r.Incoming.Path = "/") ∧
    hostPooled.2.Locations ≠ [] ∧ locPooled.2.Path = locPooled.1 :=
  ⟨(route_coverage cacheTwo).1 "a.com" "/",
    (route_coverage cacheTwo).2.1 hostPooled (by decide),
    (route_coverage cacheTwo).2.2 hostPooled (by decide) locPooled (by decide)⟩

/-- C17: every upstream of the routing model has at least two member servers; so
the upstream stored under the key of a pooled location, to which the location
refers by name, has at least two members and is never empty. -/
theorem upstream_has_two_members (cache : Cache) :
    (∀ kv ∈ (routingModel cache).Upstreams, 2 ≤ kv.2.Servers.length) ∧
    ∀ hk ∈ (routingModel cache).Hosts, ∀ pl ∈ hk.2.Locations,
      pl.2.Server.IsUpstream = true →
      ∃ u, upstreamAt (routingModel cache) (hk.1 ++ pl.1) = some u ∧
        pl.2.Server.Target = u.Name ∧ 2 ≤ u.Servers.length ∧ u.Servers ≠ [] := by
  constructor
  · intro kv hkv
    exact (upstreams_nodup_two cache kv hkv).2
  · intro hk hhk pl hpl hpool
    have hloc : locationAt (routingModel cache) hk.1 pl.1 = some pl.2 :=
      (mem_locations_iff cache hk.1 pl.1 pl.2).mp ⟨hk.2, hhk, hpl⟩
    obtain ⟨hserver, hup⟩ := pooled_lookup cache hk.1 pl.1 pl.2 hloc hpool
    cases hu : upstreamAt (routingModel cache) (hk.1 ++ pl.1) with
    | none => exact absurd hu hup
    | some u =>
      have hmem : (hk.1 ++ pl.1, u) ∈ (routingModel cache).Upstreams := mem_of_mapGet hu
      have hlen : 2 ≤ u.Servers.length := (upstreams_nodup_two cache _ hmem).2
      have hname : u.Name = upstreamName (hk.1 ++ pl.1) := (upstreams_named cache _ hmem).2
      refine ⟨u, rfl, by rw [hserver, hname], hlen, ?_⟩
      intro hnil
      rw [hnil] at hlen
      simp at hlen

/-- Witness of C17 on the cache of two pods: the upstream of `a.com/` has two
members. -/
theorem upstream_has_two_members_witness :
    upstreamTwo ∈ (routingModel cacheTwo).Upstreams ∧ 2 ≤ upstreamTwo.2.Servers.length :=
  ⟨by decide, (upstream_has_two_members cacheTwo).1 upstreamTwo (by decide)⟩

/-! ## Processing a route again -/

theorem runSteps_induct (secrets : List (String × SecretT)) (P : templateDataT → Prop)
    (hstep : ∀ cacheEntry d route, P d → P (processRoute secrets cacheEntry d route))
    (steps : List (PodWithRoutes × Route)) (d : templateDataT) (h : P d) :
    P (runSteps secrets d steps) := by
  induction steps generalizing d with
  | nil => exact h
  | cons s0 rest ih => exact ih _ (hstep s0.1 d s0.2 h)

/-- In a model whose maps are sorted, in which pooled locations have the pooled
server of their key, a step whose route finds its location with the target of the
route, or pooled with the target of the route among the members of the upstream of
its key, changes nothing. -/
theorem processRoute_eq_self (secrets : List (String × SecretT)) (cacheEntry : PodWithRoutes)
    (d : templateDataT) (route : Route) (hsorted : ModelSorted d) (loc : locationT)
    (hloc : locationAt d route.Incoming.Host route.Incoming.Path = some loc)
    (hcase : loc.Server.Target = target route ∨
      (loc.Server =
          { IsUpstream := true, PodName := "", Target := upstreamName (upstreamKey route) } ∧
        ∃ u, upstreamAt d (upstreamKey route) = some u ∧ target route ∈ memberTargets u)) :
    processRoute secrets cacheEntry d route = d := by
  obtain ⟨hH, hL, _⟩ := hsorted
  unfold locationAt at hloc
  cases hh : mapGet route.Incoming.Host d.Hosts with
  | none =>
    rw [hh] at hloc
    exact Option.noConfusion hloc
  | some host =>
    rw [hh] at hloc
    change mapGet route.Incoming.Path host.Locations = some loc at hloc
    unfold processRoute
    simp only [hh, Option.getD_some, hloc]
    by_cases ht : loc.Server.Target = target route
    · simp [ht]
    · simp only [ne_eq, ht, not_false_eq_true, if_true]
      rcases hcase with h1 | ⟨hserver, u, hu, hmem⟩
      · exact absurd h1 ht
      · have hupd : updateUpstreams d.Upstreams loc cacheEntry.Pod.Name route = d.Upstreams := by
          unfold updateUpstreams
          unfold upstreamAt at hu
          rw [hu]
          have hany : u.Servers.any (fun server => server.Target = target route) = true := by
            simp only [memberTargets, List.mem_map] at hmem
            obtain ⟨sv, hsv, hsvt⟩ := hmem
            simp only [List.any_eq_true, decide_eq_true_eq]
            exact ⟨sv, hsv, hsvt⟩
          simp [hany]
        have hlocEq : ({ loc with
            Server :=
              { IsUpstream := true, PodName := ""
                Target := upstreamName (upstreamKey route) } } : locationT) = loc := by
          rw [← hserver]
        rw [hupd, hlocEq, mapSet_eq_self (hL _ (mem_of_mapGet hh)) hloc]
        have hhostEq : ({ Locations := host.Locations } : hostT) = host := rfl
        rw [hhostEq, mapSet_eq_self hH hh]

/-- C18: for every cache in which distinct (host, path) pairs of the routes have
distinct concatenations `host ++ path`, at every point of the walk, processing
again a step (the same pod and the same route) that the walk has already
processed leaves the routing model as it is: the same hosts, locations, secrets
and location servers, and the same members in the same order in every
upstream. -/
theorem reprocessing_is_noop (secrets : List (String × SecretT)) (pods : List PodWithRoutes)
    (hcol : NoKeyCollision (stepsOf pods))
    (processed rest : List (PodWithRoutes × Route))
    (hsplit : stepsOf pods = processed ++ rest)
    (s : PodWithRoutes × Route) (hs : s ∈ processed) :
    processRoute secrets s.1 (runSteps secrets { Hosts := [], Upstreams := [] } processed) s.2 =
      runSteps secrets { Hosts := [], Upstreams := [] } processed := by
  have hcol2 : NoKeyCollision processed := by
    rw [hsplit] at hcol
    exact noKeyCollision_of_append hcol
  have hsorted : ModelSorted (runSteps secrets { Hosts := [], Upstreams := [] } processed) := by
    refine runSteps_induct secrets ModelSorted
      (fun e d r hd => modelSorted_processRoute secrets e d r hd) processed _ ?_
    refine ⟨?_, ?_, ?_⟩
    · simp [keysSorted]
    · intro hk hhk
      simp at hhk
    · simp [keysSorted]
  have hpooled : ∀ h p loc,
      locationAt (runSteps secrets { Hosts := [], Upstreams := [] } processed) h p = some loc →
      loc.Server.IsUpstream = true →
      loc.Server = { IsUpstream := true, PodName := "", Target := upstreamName (h ++ p) } ∧
        upstreamAt (runSteps secrets { Hosts := [], Upstreams := [] } processed) (h ++ p) ≠
          none := by
    refine runSteps_induct secrets (fun d => ∀ h p loc, locationAt d h p = some loc →
      loc.Server.IsUpstream = true →
      loc.Server = { IsUpstream := true, PodName := "", Target := upstreamName (h ++ p) } ∧
        upstreamAt d (h ++ p) ≠ none)
      (fun e d r ih => pooled_step secrets e d r ih) processed _ ?_
    intro h p loc hloc
    simp [locationAt, mapGet] at hloc
  obtain ⟨_, _, hmain⟩ := keyInv_runSteps secrets processed hcol2
  obtain ⟨loc, hloc, hA, hB⟩ := hmain s hs
  refine processRoute_eq_self secrets s.1 _ s.2 hsorted loc hloc ?_
  cases hu : upstreamAt (runSteps secrets { Hosts := [], Upstreams := [] } processed)
      (upstreamKey s.2) with
  | none =>
    left
    exact ((hA hu).2 s hs rfl).symm
  | some u =>
    obtain ⟨hB1, hB2, _, hB4, _⟩ := hB u hu
    by_cases ht : loc.Server.Target = target s.2
    · exact Or.inl ht
    · right
      refine ⟨(hpooled _ _ loc hloc hB1).1, u, rfl, ?_⟩
      refine hB4 s hs rfl ?_
      rw [← hB2]
      exact fun hx => ht hx.symm

/-- Witness of C18: after the walk of `podA5` and `podA6`, processing the route of
`podA5` again changes nothing. -/
theorem reprocessing_is_noop_witness :
    NoKeyCollision (stepsOf [podA5, podA6]) ∧
    processRoute [] podA5
        (runSteps [] { Hosts := [], Upstreams := [] } (stepsOf [podA5, podA6])) routeA5 =
      runSteps [] { Hosts := [], Upstreams := [] } (stepsOf [podA5, podA6]) :=
  ⟨by decide,
    reprocessing_is_noop [] [podA5, podA6] (by decide) (stepsOf [podA5, podA6]) [] (by simp)
      (podA5, routeA5) (by decide)⟩

end Nginx

namespace Ingress

/-! ## The location of the API key secret -/

/-- The function `Split` on the default location, on values with no, two and
three separators, and on the separator alone. -/
theorem split_test_values :
    Split "routing:api-key" ':' = ["routing", "api-key"] ∧ Split "abc" ':' = ["abc"] ∧
      Split "a:b:c" ':' = ["a", "b", "c"] ∧ Split ":" ':' = ["", ""] ∧
      Split "a:" ':' = ["a", ""] := by
  decide

theorem splitChars_ne_nil (sep : Char) (cs : List Char) : splitChars sep cs ≠ [] := by
  induction cs with
  | nil => simp [splitChars]
  | cons c cs ih =>
    unfold splitChars
    by_cases h : c = sep
    · simp [h]
    · simp only [h, if_false]
      cases hs : splitChars sep cs with
      | nil => simp
      | cons piece pieces => simp

/-- No piece of a split contains the separator. -/
theorem splitChars_no_sep (sep : Char) (cs : List Char) :
    ∀ piece ∈ splitChars sep cs, sep ∉ piece := by
  induction cs with
  | nil => simp [splitChars]
  | cons c cs ih =>
    unfold splitChars
    by_cases h : c = sep
    · simp only [h, if_true, List.mem_cons]
      rintro piece (hp | hp)
      · rw [hp]
        simp
      · exact ih piece hp
    · simp only [h, if_false]
      cases hs : splitChars sep cs with
      | nil => exact absurd hs (splitChars_ne_nil sep cs)
      | cons piece pieces =>
        rw [hs] at ih
        simp only [List.mem_cons]
        rintro q (hq | hq)
        · rw [hq]
          simp only [List.mem_cons, not_or]
          exact ⟨fun hx => h hx.symm, ih piece (List.mem_cons_self _ _)⟩
        · exact ih q (List.mem_cons_of_mem _ hq)

/-- Joining the pieces of a split with the separator gives the sequence back. -/
theorem splitChars_intercalate (sep : Char) (cs : List Char) :
    List.intercalate [sep] (splitChars sep cs) = cs := by
  induction cs with
  | nil => simp [splitChars, List.intercalate]
  | cons c cs ih =>
    unfold splitChars
    by_cases h : c = sep
    · simp only [h, if_true]
      cases hs : splitChars sep cs with
      | nil => exact absurd hs (splitChars_ne_nil sep cs)
      | cons piece pieces =>
        rw [hs] at ih
        rw [← ih]
        simp [List.intercalate, List.intersperse]
    · simp only [h, if_false]
      cases hs : splitChars sep cs with
      | nil => exact absurd hs (splitChars_ne_nil sep cs)
      | cons piece pieces =>
        rw [hs] at ih
        rw [← ih]
        cases pieces <;> simp [List.intercalate, List.intersperse]

theorem configFromEnv_of_parts_error {Selector : Type} (lib : Library Selector)
    (getenv : String → String) (err : String)
    (h : apiKeySecretLocationParts (getenv EnvVarAPIKeySecretLocation) = .error err) :
    ConfigFromEnv lib getenv = .error err := by
  unfold ConfigFromEnv
  simp only [h]

theorem configFromEnv_fields {Selector : Type} (lib : Library Selector)
    (getenv : String → String) (a b : String)
    (h : apiKeySecretLocationParts (getenv EnvVarAPIKeySecretLocation) = .ok (a, b))
    (config : Config Selector) (hc : ConfigFromEnv lib getenv = .ok config) :
    config.APIKeySecret = a ∧ config.APIKeySecretDataField = b := by
  unfold ConfigFromEnv at hc
  simp only [h] at hc
  split_ifs at hc
  all_goals
    split at hc
    · exact Except.noConfusion hc
    · split at hc
      · injection hc with hc
        rw [← hc]
        exact ⟨rfl, rfl⟩
      · exact Except.noConfusion hc

/-- C19: when `API_KEY_SECRET_LOCATION` is empty, every configuration that
`ConfigFromEnv` returns has `APIKeySecret` `routing` and `APIKeySecretDataField`
`api-key`; for a non-empty value that does not split on `:` into exactly two
parts, `ConfigFromEnv` returns the invalid-location error; for a non-empty value
that splits into exactly two parts, every configuration returned has the first
part as `APIKeySecret` and the second as `APIKeySecretDataField`; and in the two
cases without the error a configuration is returned whenever the annotation
names, the port and the label selector pass their validations. -/
theorem api_key_secret_location {Selector : Type} (lib : Library Selector)
    (getenv : String → String) :
    (getenv "API_KEY_SECRET_LOCATION" = "" →
      ∀ config, ConfigFromEnv lib getenv = .ok config →
        config.APIKeySecret = "routing" ∧ config.APIKeySecretDataField = "api-key") ∧
    (getenv "API_KEY_SECRET_LOCATION" ≠ "" →
      (Split (getenv "API_KEY_SECRET_LOCATION") ':').length ≠ 2 →
      ConfigFromEnv lib getenv =
        .error ("API_KEY_SECRET_LOCATION" ++
          " is not in the format of \x7bAPI_KEY_SECRET_NAME\x7d:\x7bAPI_KEY_SECRET_DATA_FIELD_NAME\x7d")) ∧
    (getenv "API_KEY_SECRET_LOCATION" ≠ "" →
      ∀ a b, Split (getenv "API_KEY_SECRET_LOCATION") ':' = [a, b] →
      ∀ config, ConfigFromEnv lib getenv = .ok config →
        config.APIKeySecret = a ∧ config.APIKeySecretDataField = b) ∧
    ((getenv "API_KEY_SECRET_LOCATION" = "" ∨
        (Split (getenv "API_KEY_SECRET_LOCATION") ':').length = 2) →
      lib.IsQualifiedName (lib.ToLower
        (if getenv "HOSTS_ANNOTATION" = "" then "routingHosts"
          else getenv "HOSTS_ANNOTATION")) = true →
      lib.IsQualifiedName (lib.ToLower
        (if getenv "PATHS_ANNOTATION" = "" then "routingPaths"
          else getenv "PATHS_ANNOTATION")) = true →
      (∃ port, portFromEnv lib (getenv "PORT") = .ok port) →
      (∃ selector, lib.Parse
        (if getenv "ROUTABLE_LABEL_SELECTOR" = "" then "routable=true"
          else getenv "ROUTABLE_LABEL_SELECTOR") = some selector) →
      ∃ config, ConfigFromEnv lib getenv = .ok config) := by
  refine ⟨?_, ?_, ?_, ?_⟩
  · intro hempty config hc
    have hparts : apiKeySecretLocationParts (getenv EnvVarAPIKeySecretLocation) =
        .ok ("routing", "api-key") := by
      unfold apiKeySecretLocationParts
      rw [show getenv EnvVarAPIKeySecretLocation = "" from hempty]
      rfl
    exact configFromEnv_fields lib getenv _ _ hparts config hc
  · intro hne hlen
    apply configFromEnv_of_parts_error
    unfold apiKeySecretLocationParts
    rw [if_neg (show ¬ getenv EnvVarAPIKeySecretLocation = "" from hne)]
    split
    · rename_i name field hsplit
      exfalso
      apply hlen
      rw [show getenv "API_KEY_SECRET_LOCATION" = getenv EnvVarAPIKeySecretLocation from rfl,
        hsplit]
      rfl
    · rfl
  · intro hne a b hsplit config hc
    have hparts : apiKeySecretLocationParts (getenv EnvVarAPIKeySecretLocation) =
        .ok (a, b) := by
      unfold apiKeySecretLocationParts
      rw [if_neg (show ¬ getenv EnvVarAPIKeySecretLocation = "" from hne),
        show getenv EnvVarAPIKeySecretLocation = getenv "API_KEY_SECRET_LOCATION" from rfl,
        hsplit]
    exact configFromEnv_fields lib getenv _ _ hparts config hc
  · intro hcase hhosts hpaths hport hsel
    obtain ⟨port, hport⟩ := hport
    obtain ⟨selector, hsel⟩ := hsel
    have hparts : ∃ a b, apiKeySecretLocationParts (getenv EnvVarAPIKeySecretLocation) =
        .ok (a, b) := by
      unfold apiKeySecretLocationParts
      by_cases hempty : getenv EnvVarAPIKeySecretLocation = ""
      · exact ⟨_, _, by rw [if_pos hempty]⟩
      · rw [if_neg hempty]
        rcases hcase with h | h
        · exact absurd h hempty
        · have h2 : (Split (getenv EnvVarAPIKeySecretLocation) ':').length = 2 := h
          match hs : Split (getenv EnvVarAPIKeySecretLocation) ':', h2 with
          | [a, b], _ => exact ⟨a, b, rfl⟩
    obtain ⟨a, b, hparts⟩ := hparts
    refine ⟨{ APIKeySecret := a, APIKeySecretDataField := b
              HostsAnnotation :=
                if getenv "HOSTS_ANNOTATION" = "" then "routingHosts"
                else getenv "HOSTS_ANNOTATION"
              PathsAnnotation :=
                if getenv "PATHS_ANNOTATION" = "" then "routingPaths"
                else getenv "PATHS_ANNOTATION"
              Port := port, RoutableLabelSelector := selector }, ?_⟩
    unfold ConfigFromEnv
    simp only [hparts]
    have e1 : EnvVarHostsAnnotation = "HOSTS_ANNOTATION" := rfl
    have e2 : EnvVarPathsAnnotation = "PATHS_ANNOTATION" := rfl
    have e3 : EnvVarPort = "PORT" := rfl
    have e4 : EnvVarRoutableLabelSelector = "ROUTABLE_LABEL_SELECTOR" := rfl
    have e5 : DefaultHostsAnnotation = "routingHosts" := rfl
    have e6 : DefaultPathsAnnotation = "routingPaths" := rfl
    have e7 : DefaultRoutableLabelSelector = "routable=true" := rfl
    simp only [e1, e2, e3, e4, e5, e6, e7, hhosts, hpaths, hport, hsel, not_true_eq_false,
      if_false]

/-- Witness of C19 with the stand-in library: with the location `mysecret:mykey`
the configuration returned has the secret `mysecret` and the field `mykey`, and
with the location `a:b:c` the invalid-location error is returned. -/
theorem api_key_secret_location_witness :
    (∀ config, ConfigFromEnv permissiveLibrary envLocation = .ok config →
      config.APIKeySecret = "mysecret" ∧ config.APIKeySecretDataField = "mykey") ∧
    (∃ config, ConfigFromEnv permissiveLibrary envLocation = .ok config) ∧
    ConfigFromEnv permissiveLibrary envLocationThree =
      .error ("API_KEY_SECRET_LOCATION" ++
        " is not in the format of \x7bAPI_KEY_SECRET_NAME\x7d:\x7bAPI_KEY_SECRET_DATA_FIELD_NAME\x7d") :=
  ⟨(api_key_secret_location permissiveLibrary envLocation).2.2.1 (by decide)
      "mysecret" "mykey" (by decide),
    (api_key_secret_location permissiveLibrary envLocation).2.2.2 (Or.inr (by decide))
      rfl rfl ⟨80, rfl⟩ ⟨"routable=true", rfl⟩,
    (api_key_secret_location permissiveLibrary envLocationThree).2.1 (by decide)
      (by decide)⟩

end Ingress
